import Mathlib

/-!
# Crossfader: the fade scheduler of `src/core/audio/Crossfader.cpp`

A shallow embedding of `musik::core::audio::Crossfader`.

* The `std::list<std::shared_ptr<FadeContext>>` is a `List FadeContext`. Every
  context object is allocated by `Fade` and pushed exactly once, so the list of
  values carries the same information as the list of pointers.
* `Player*` is `Option Player` (`none` is `nullptr`); an output is named by a
  number. `long` and `int` values are mathematical integers: the only
  arithmetic is `durationMs / 100`, `++ticksCounted` below `ticksTotal` and
  `size - 3`, none of which leaves the range of the machine type for a list
  that fits in memory.
* The calls made on outputs and players are appended to `State.calls`, the
  queries made to the transport to `State.queries`.
* Volumes are rationals that hold the values the source computes in `float`
  and `double`: `float` and `double` round a rational to the nearest number of
  the IEEE 754 binary32 and binary64 formats, ties to even, subnormals
  included. Infinities and NaN are not represented; the global volume the
  transport answers is taken to be a finite `double`.
* The message queue holds the delays of the pending `MESSAGE_TICK` messages.
-/

namespace Crossfader

/-- Line 48: `#define TICKS_PER_SECOND 10`. -/
def TICKS_PER_SECOND : Int := 10

/-- Line 49: `#define TICK_TIME_MILLIS (1000 / TICKS_PER_SECOND)`. -/
def TICK_TIME_MILLIS : Int := Int.tdiv 1000 TICKS_PER_SECOND

/-- Line 50: `#define MAX_FADES 3`. -/
def MAX_FADES : Int := 3

/-- Line 59: `#define MESSAGE_QUIT 0`. -/
def MESSAGE_QUIT : Nat := 0

/-- Line 60: `#define MESSAGE_TICK 1`. -/
def MESSAGE_TICK : Nat := 1

/-- Modelled from the spec: the `Direction` enum declared in the header
`core/audio/Crossfader.h` ("direction: enum {FadeIn, FadeOut}"). -/
inductive Direction where
  | FadeIn
  | FadeOut
deriving DecidableEq, Repr

/-- The address of a `Player` object. -/
abbrev Player := Nat

/-- The identity of an `IOutput` object held through a `shared_ptr`. -/
abbrev Output := Nat

/-- Modelled from the spec: the `FadeContext` record declared in the header
`core/audio/Crossfader.h`, with the five fields `Fade` assigns on lines 88-92.
`player = none` is the null pointer. -/
structure FadeContext where
  output : Output
  player : Option Player
  direction : Direction
  ticksCounted : Int
  ticksTotal : Int
deriving DecidableEq, Repr

/-- A call made by the crossfader on an output or on a player. -/
inductive Call where
  | SetVolume (output : Output) (volume : ℚ)
  | Pause (output : Output)
  | Resume (output : Output)
  | Stop (output : Output)
  | Destroy (player : Player)
deriving DecidableEq

/-- A query made by the crossfader to the transport. -/
inductive Query where
  | Volume
  | IsMuted
deriving DecidableEq, Repr

/-- The answers of the `ITransport` during one tick: the answer to the
`Volume()` call, as the value of the `double` it returns, and the answer to
the `k`-th `IsMuted()` call of that tick (counted from 0). -/
structure Transport where
  Volume : ℚ
  IsMuted : Nat → Bool

/-- The fields of the `Crossfader` object, the pending `MESSAGE_TICK` messages
of its queue (each with the delay it was posted with), and the logs of the
calls and queries made so far. -/
structure State where
  contextList : List FadeContext
  paused : Bool
  messageQueue : List Int
  calls : List Call
  queries : List Query

/-- Lines 62-69: the constructor. No context, not paused, nothing posted. -/
def init : State :=
  { contextList := [], paused := false, messageQueue := [], calls := [], queries := [] }

/-- Modelled from the spec: `messageQueue.Post(Message::Create(this, MESSAGE_TICK, 0, 0), delay)`
of the message queue in `core/runtime`, which is not part of the sources at hand
("post a callback to be invoked after N milliseconds"). -/
def Post (queue : List Int) (delay : Int) : List Int :=
  queue ++ [delay]

/-- Modelled from the spec: `messageQueue.Remove(this, MESSAGE_TICK)` of the message
queue in `core/runtime` ("cancellable by tag"): every pending tick of this target is dropped. -/
def Remove (_queue : List Int) : List Int :=
  []

/-- Lines 52-54: `ENQUEUE_TICK()`. -/
def ENQUEUE_TICK (s : State) : State :=
  { s with messageQueue := Post s.messageQueue TICK_TIME_MILLIS }

/-- Lines 156-169: `Crossfader::Contains`. -/
def Contains (s : State) (player : Option Player) : Bool :=
  match player with
  | none => false
  | some p => s.contextList.any (fun context => decide (some p = context.player))

/-- Lines 100-103: the loop that walks the first `toRemove` contexts and marks
each as done. -/
def markDone : Nat → List FadeContext → List FadeContext
  | 0, contexts => contexts
  | _ + 1, [] => []
  | k + 1, context :: rest =>
    { context with ticksCounted := context.ticksTotal } :: markDone k rest

/-- Lines 77-110: `Crossfader::Fade`. -/
def Fade (s : State) (player : Option Player) (output : Output)
    (direction : Direction) (durationMs : Int) : State :=
  if Contains s player = false then
    let context : FadeContext :=
      { output := output
        player := player
        direction := direction
        ticksCounted := 0
        ticksTotal := Int.tdiv durationMs TICK_TIME_MILLIS }
    let pushed := s.contextList ++ [context]
    let toRemove : Int := (pushed.length : Int) - MAX_FADES
    let marked := if toRemove > 0 then markDone toRemove.toNat pushed else pushed
    let s1 : State := { s with contextList := marked }
    if marked.length = 1 then ENQUEUE_TICK s1 else s1
  else
    s

/-- Lines 117-121: the body of the loop of `Stop` for one context. -/
def stopCalls (context : FadeContext) : List Call :=
  (match context.player with
    | some p => [Call.Destroy p]
    | none => []) ++ [Call.Stop context.output]

/-- Lines 115-123: the loop of `Stop`, from the iterator position on. -/
def stopLoop : List FadeContext → List Call
  | [] => []
  | context :: rest => stopCalls context ++ stopLoop rest

/-- Lines 112-126: `Crossfader::Stop`. -/
def Stop (s : State) : State :=
  { s with calls := s.calls ++ stopLoop s.contextList, contextList := [] }

/-- Lines 128-141: `Crossfader::OnPlayerDestroyed`. -/
def OnPlayerDestroyed (s : State) (player : Option Player) : State :=
  match player with
  | none => s
  | some p =>
    { s with contextList := s.contextList.map (fun context =>
        if context.player = some p then { context with player := none } else context) }

/-- Line 147: `std::list::remove_if`, which walks the list and erases every
element the predicate accepts. -/
def remove_if (pred : FadeContext → Bool) : List FadeContext → List FadeContext
  | [] => []
  | context :: rest =>
    if pred context = true then remove_if pred rest else context :: remove_if pred rest

/-- Lines 143-154: `Crossfader::Cancel`. -/
def Cancel (s : State) (player : Option Player) (direction : Direction) : State :=
  match player with
  | none => s
  | some p =>
    { s with
      contextList :=
        remove_if
          (fun context =>
            decide (context.player = some p) && decide (context.direction = direction))
          s.contextList }

/-- Lines 171-184: `Crossfader::Pause`. -/
def Pause (s : State) : State :=
  { s with
    paused := true
    calls := s.calls ++ s.contextList.map (fun context => Call.Pause context.output)
    messageQueue := Remove s.messageQueue }

/-- Lines 186-200: `Crossfader::Resume`. -/
def Resume (s : State) : State :=
  { s with
    paused := false
    calls := s.calls ++ s.contextList.map (fun context => Call.Resume context.output)
    messageQueue := Post s.messageQueue 0 }

/-- Lines 202-205: `Crossfader::Reset`. -/
def Reset (s : State) : State :=
  { s with contextList := [] }

/-- Round to the nearest integer, ties to the even one: the rounding of IEEE 754
arithmetic in its default mode. -/
def roundEven (m : ℚ) : Int :=
  if m - (⌊m⌋ : ℚ) < 1 / 2 then ⌊m⌋
  else if 1 / 2 < m - (⌊m⌋ : ℚ) then ⌊m⌋ + 1
  else if ⌊m⌋ % 2 = 0 then ⌊m⌋ else ⌊m⌋ + 1

/-- The exponent of the last place of a binary floating-point number with `p`
significant bits near `x`; `emin` is the exponent of the smallest subnormal. -/
def lastPlace (p : Nat) (emin : Int) (x : ℚ) : Int :=
  max (Int.log 2 |x| - ((p : Int) - 1)) emin

/-- The value of `x` rounded to a binary floating-point format with `p`
significant bits and smallest subnormal `2 ^ emin`, nearest with ties to even.
The value is a rational; the format is taken without an upper bound, so a
result that would overflow to infinity is not represented. -/
def roundBits (p : Nat) (emin : Int) (x : ℚ) : ℚ :=
  (roundEven (x / (2 : ℚ) ^ lastPlace p emin x) : ℚ) * (2 : ℚ) ^ lastPlace p emin x

/-- The C++ type `float` (IEEE 754 binary32): the value a real number has after
conversion to `float`, or the result of a `float` operation on its exact value. -/
def float (x : ℚ) : ℚ :=
  roundBits 24 (-149) x

/-- The C++ type `double` (IEEE 754 binary64), as `float`. -/
def double (x : ℚ) : ℚ :=
  roundBits 53 (-1074) x

/-- Lines 225-233: the volume written for a fade whose `ticksCounted` has just
been incremented. Lines 225-227 convert both counters to `float` and divide in
`float`; the quotient is kept in a `double`, which changes nothing. Line 230
subtracts from `1.0f` a `double`, that is, in `double`. Line 233 multiplies two
`double`s. A zero divisor yields 0 here (NaN or an infinity in the source); it
does not occur in a state reached from the constructor, see
`done_context_tick`. -/
def outputVolume (globalVolume : ℚ) (fade : FadeContext) : ℚ :=
  let percent : ℚ := float (float (fade.ticksCounted : ℚ) / float (fade.ticksTotal : ℚ))
  let percent : ℚ :=
    if fade.direction = Direction.FadeOut then double (1 - percent) else percent
  double (globalVolume * percent)

/-- Lines 218-219: the progress step of the tick, `++fade->ticksCounted` for a
fade below its total. -/
def advance (fade : FadeContext) : FadeContext :=
  if fade.ticksCounted < fade.ticksTotal then
    { fade with ticksCounted := fade.ticksCounted + 1 }
  else
    fade

/-- Lines 221-242: the `SetVolume` call for a fade that has just been advanced,
given the answer of this `IsMuted()` query. -/
def volumeCall (globalVolume : ℚ) (muted : Bool) (fade : FadeContext) : Call :=
  if muted = true then Call.SetVolume fade.output 0
  else Call.SetVolume fade.output (outputVolume globalVolume fade)

/-- Lines 246-252: the calls made for a fade that is done. -/
def completionCalls (fade : FadeContext) : List Call :=
  if fade.direction = Direction.FadeOut then
    (match fade.player with
      | some p => [Call.Destroy p]
      | none => []) ++ [Call.Stop fade.output]
  else
    []

/-- What the loop of the tick leaves behind: the contexts kept, the calls made
and the number of `IsMuted()` queries made so far in this tick. -/
structure TickResult where
  contextList : List FadeContext
  calls : List Call
  mutedQueries : Nat

/-- Lines 215-259: the `while` loop of the tick, from the iterator position on.
`asked` is the number of `IsMuted()` queries already made in this tick. -/
def tickLoop (globalVolume : ℚ) (isMuted : Nat → Bool) :
    Nat → List FadeContext → TickResult
  | asked, [] => { contextList := [], calls := [], mutedQueries := asked }
  | asked, fade :: rest =>
    let fade1 := advance fade
    let volume : List Call :=
      if fade.ticksCounted < fade.ticksTotal then
        [volumeCall globalVolume (isMuted asked) fade1]
      else []
    let asked1 : Nat := if fade.ticksCounted < fade.ticksTotal then asked + 1 else asked
    let r := tickLoop globalVolume isMuted asked1 rest
    if fade1.ticksCounted ≥ fade1.ticksTotal then
      { r with calls := volume ++ completionCalls fade1 ++ r.calls }
    else
      { r with contextList := fade1 :: r.contextList, calls := volume ++ r.calls }

/-- Lines 207-267: `Crossfader::ProcessMessage`. Only `MESSAGE_TICK` has a case. -/
def ProcessMessage (s : State) (type : Nat) (transport : Transport) : State :=
  if type = MESSAGE_TICK then
    let r := tickLoop transport.Volume transport.IsMuted 0 s.contextList
    let s1 : State :=
      { s with
        contextList := r.contextList
        calls := s.calls ++ r.calls
        queries := s.queries ++ Query.Volume :: List.replicate r.mutedQueries Query.IsMuted }
    if s1.contextList.length ≠ 0 then ENQUEUE_TICK s1 else s1
  else
    s

/-- One step of the scheduler: a call of a public operation, or the delivery of
the pending tick at position `i` of the queue (nothing happens when there is no
such message). -/
inductive Op where
  | Fade (player : Option Player) (output : Output) (direction : Direction) (durationMs : Int)
  | Stop
  | OnPlayerDestroyed (player : Option Player)
  | Cancel (player : Option Player) (direction : Direction)
  | Pause
  | Resume
  | Reset
  | Tick (i : Nat) (transport : Transport)

/-- The state after one step. -/
def step (s : State) : Op → State
  | Op.Fade player output direction durationMs => Fade s player output direction durationMs
  | Op.Stop => Stop s
  | Op.OnPlayerDestroyed player => OnPlayerDestroyed s player
  | Op.Cancel player direction => Cancel s player direction
  | Op.Pause => Pause s
  | Op.Resume => Resume s
  | Op.Reset => Reset s
  | Op.Tick i transport =>
    if i < s.messageQueue.length then
      ProcessMessage { s with messageQueue := s.messageQueue.eraseIdx i } MESSAGE_TICK transport
    else
      s

/-- The state after a sequence of steps. -/
def run (s : State) (ops : List Op) : State :=
  ops.foldl step s

/-- A state with three fades in flight, the third with its player gone. -/
def threeFades : State :=
  { contextList :=
      [ { output := 10, player := some 1, direction := Direction.FadeOut,
          ticksCounted := 1, ticksTotal := 5 },
        { output := 11, player := some 2, direction := Direction.FadeIn,
          ticksCounted := 0, ticksTotal := 3 },
        { output := 12, player := none, direction := Direction.FadeOut,
          ticksCounted := 2, ticksTotal := 4 } ]
    paused := false
    messageQueue := [100]
    calls := []
    queries := [] }

/-- Three fades started one after the other, for three different players. -/
def fadeThrice : List Op :=
  [Op.Fade (some 1) 10 Direction.FadeOut 500, Op.Fade (some 2) 11 Direction.FadeIn 500,
    Op.Fade (some 3) 12 Direction.FadeIn 500]

/-- The call is a `Stop` on an output or a `Destroy` on a player. -/
def Call.isShutdown : Call → Bool
  | Call.Stop _ => true
  | Call.Destroy _ => true
  | _ => false

/-- A fade-out of 300 ms started on the fresh crossfader, and the delivery of
its first tick with global volume 1 and no mute. -/
def fadeAndTick : List Op :=
  [Op.Fade (some 1) 10 Direction.FadeOut 300,
    Op.Tick 0 { Volume := 1, IsMuted := fun _ => false }]

/-- A transport with global volume `g` that answers every `IsMuted()` with `false`. -/
def unmuted (g : ℚ) : Transport :=
  { Volume := g, IsMuted := fun _ => false }

/-- The step starts no fade with a negative duration. -/
def Op.nonnegDuration : Op → Prop
  | Op.Fade _ _ _ durationMs => 0 ≤ durationMs
  | _ => True

/-- What a context that is still in the list after a step has in common with
the context it was before the step: `ticksCounted` has not gone down, and
output, direction and `ticksTotal` are the same. -/
def Continues (after before : FadeContext) : Prop :=
  before.ticksCounted ≤ after.ticksCounted ∧ after.output = before.output
    ∧ after.direction = before.direction ∧ after.ticksTotal = before.ticksTotal

/-- The call is a `SetVolume` on an output. -/
def Call.isSetVolume : Call → Bool
  | Call.SetVolume _ _ => true
  | _ => false

/-- A transport with global volume `g` that answers every `IsMuted()` with `true`. -/
def muted (g : ℚ) : Transport :=
  { Volume := g, IsMuted := fun _ => true }

/-- A fade-in of 0 ms started on the fresh crossfader. -/
def zeroFade : List Op :=
  [Op.Fade (some 1) 10 Direction.FadeIn 0]

/-- A fade-in of 300 ms started on the fresh crossfader. -/
def fadeInOnce : List Op :=
  [Op.Fade (some 1) 10 Direction.FadeIn 300]

/-- A fade-out of 50 ms, less than one tick, started on the fresh crossfader. -/
def shortFadeOut : List Op :=
  [Op.Fade (some 1) 10 Direction.FadeOut 50]

/-- `Pause` on the fresh crossfader, then a fade-out of 300 ms. -/
def fadeWhilePaused : List Op :=
  [Op.Pause, Op.Fade (some 1) 10 Direction.FadeOut 300]

/-- A fade, a `Reset` while its first tick is still pending, and a second fade. -/
def fadeResetFade : List Op :=
  [Op.Fade (some 1) 10 Direction.FadeOut 300, Op.Reset,
    Op.Fade (some 2) 11 Direction.FadeIn 300]

/-- A transport with global volume 1 that answers the first `IsMuted()` of a
tick with `true` and the later ones with `false`. -/
def flicker : Transport :=
  { Volume := 1, IsMuted := fun k => decide (k = 0) }

/-- Lines 135-139: the body of the lambda of `OnPlayerDestroyed` for one context. -/
def clearPlayer (p : Player) (context : FadeContext) : FadeContext :=
  if context.player = some p then { context with player := none } else context

/-- The number of contexts accepted by `q` that the step can append to the
list: 1 for a `Fade` whose new context is accepted by `q`, 0 otherwise. -/
def Op.created (q : FadeContext → Bool) : Op → Nat
  | Op.Fade player output direction durationMs =>
    if q { output := output, player := player, direction := direction,
           ticksCounted := 0, ticksTotal := Int.tdiv durationMs TICK_TIME_MILLIS } = true
    then 1 else 0
  | _ => 0

/-- A fade-in of 16777218 ticks (`2 ^ 24 + 2`) started on the fresh crossfader. -/
def longFadeIn : List Op :=
  [Op.Fade (some 2) 11 Direction.FadeIn 1677721800]

/-! ## Helper lemmas -/

/-! ### Rounding -/

theorem roundEven_floor_le (m : ℚ) : ⌊m⌋ ≤ roundEven m := by
  unfold roundEven
  split
  · exact le_refl _
  · split
    · omega
    · split <;> omega

theorem roundEven_le_floor_add_one (m : ℚ) : roundEven m ≤ ⌊m⌋ + 1 := by
  unfold roundEven
  split
  · omega
  · split
    · omega
    · split <;> omega

theorem roundEven_intCast (n : Int) : roundEven (n : ℚ) = n := by
  unfold roundEven
  simp

theorem le_roundEven (n : Int) (m : ℚ) (h : (n : ℚ) ≤ m) : n ≤ roundEven m :=
  le_trans (Int.le_floor.mpr h) (roundEven_floor_le m)

theorem roundEven_le (n : Int) (m : ℚ) (h : m ≤ (n : ℚ)) : roundEven m ≤ n := by
  rcases eq_or_lt_of_le h with heq | hlt
  · rw [heq, roundEven_intCast]
  · have hfl : ⌊m⌋ < n := Int.floor_lt.mpr hlt
    have := roundEven_le_floor_add_one m
    omega

theorem roundEven_mono (m1 m2 : ℚ) (h : m1 ≤ m2) : roundEven m1 ≤ roundEven m2 := by
  have hfl : ⌊m1⌋ ≤ ⌊m2⌋ := Int.floor_mono h
  rcases eq_or_lt_of_le hfl with heq | hlt
  · unfold roundEven
    rw [heq]
    have hr : m1 - (⌊m2⌋ : ℚ) ≤ m2 - (⌊m2⌋ : ℚ) := by linarith
    by_cases h1 : m1 - (⌊m2⌋ : ℚ) < 1 / 2
    · rw [if_pos h1]
      split
      · exact le_refl _
      · split
        · omega
        · split <;> omega
    · rw [if_neg h1]
      have h2 : ¬ m2 - (⌊m2⌋ : ℚ) < 1 / 2 := by
        intro hc
        exact h1 (lt_of_le_of_lt hr hc)
      rw [if_neg h2]
      by_cases h3 : 1 / 2 < m1 - (⌊m2⌋ : ℚ)
      · rw [if_pos h3, if_pos (lt_of_lt_of_le h3 hr)]
      · rw [if_neg h3]
        by_cases h4 : 1 / 2 < m2 - (⌊m2⌋ : ℚ)
        · rw [if_pos h4]
          split <;> omega
        · rw [if_neg h4]
  · have h1 := roundEven_le_floor_add_one m1
    have h2 := roundEven_floor_le m2
    omega

theorem roundEven_eq_of_near (m : ℚ) (n : Int) (h1 : (n : ℚ) - 1 / 2 < m)
    (h2 : m < (n : ℚ) + 1 / 2) : roundEven m = n := by
  by_cases hge : (n : ℚ) ≤ m
  · have hfl : ⌊m⌋ = n := by
      rw [Int.floor_eq_iff]
      constructor
      · exact hge
      · linarith
    unfold roundEven
    rw [hfl, if_pos (by linarith)]
  · have hlt : m < (n : ℚ) := lt_of_not_le hge
    have hfl : ⌊m⌋ = n - 1 := by
      rw [Int.floor_eq_iff]
      push_cast
      constructor
      · linarith
      · linarith
    unfold roundEven
    rw [hfl]
    push_cast
    rw [if_neg (by linarith), if_pos (by linarith)]
    omega

theorem roundEven_tie_even (m : ℚ) (n : Int) (h : m = (n : ℚ) + 1 / 2) (heven : n % 2 = 0) :
    roundEven m = n := by
  have hfl : ⌊m⌋ = n := by
    rw [Int.floor_eq_iff]
    constructor <;> linarith
  unfold roundEven
  rw [hfl, if_neg (by linarith), if_neg (by linarith), if_pos heven]

theorem two_zpow_pos (e : Int) : (0 : ℚ) < (2 : ℚ) ^ e :=
  zpow_pos (by norm_num) e

theorem lastPlace_mono (p : Nat) (emin : Int) (x y : ℚ) (hx : 0 < x) (h : x ≤ y) :
    lastPlace p emin x ≤ lastPlace p emin y := by
  unfold lastPlace
  have hy : 0 < y := lt_of_lt_of_le hx h
  have hlog : Int.log 2 |x| ≤ Int.log 2 |y| := by
    rw [abs_of_pos hx, abs_of_pos hy]
    exact Int.log_mono_right hx h
  exact max_le_max (by omega) (le_refl _)

/-- A positive `x` is below `2 ^ (lastPlace + p)`. -/
theorem lt_zpow_lastPlace (p : Nat) (emin : Int) (x : ℚ) (hx : 0 < x) :
    x < (2 : ℚ) ^ (lastPlace p emin x + (p : Int)) := by
  have h1 : x < (2 : ℚ) ^ (Int.log 2 x + 1) := by
    have := Int.lt_zpow_succ_log_self (b := 2) (by norm_num) x
    simpa using this
  have h2 : Int.log 2 x + 1 ≤ lastPlace p emin x + (p : Int) := by
    unfold lastPlace
    rw [abs_of_pos hx]
    have := le_max_left (Int.log 2 x - ((p : Int) - 1)) emin
    omega
  exact lt_of_lt_of_le h1 (zpow_le_zpow_right₀ (by norm_num) h2)

/-- Above the subnormal range a positive `x` is at least `2 ^ (lastPlace + p - 1)`. -/
theorem zpow_lastPlace_le (p : Nat) (emin : Int) (x : ℚ) (hx : 0 < x)
    (he : emin < lastPlace p emin x) :
    (2 : ℚ) ^ (lastPlace p emin x + (p : Int) - 1) ≤ x := by
  have heq : lastPlace p emin x = Int.log 2 x - ((p : Int) - 1) := by
    unfold lastPlace at he ⊢
    rw [abs_of_pos hx] at he ⊢
    rcases max_cases (Int.log 2 x - ((p : Int) - 1)) emin with ⟨h, _⟩ | ⟨h, _⟩
    · exact h
    · rw [h] at he
      exact absurd he (lt_irrefl _)
  have h1 : (2 : ℚ) ^ (Int.log 2 x) ≤ x := by
    have := Int.zpow_log_le_self (b := 2) (by norm_num) hx
    simpa using this
  have h2 : lastPlace p emin x + (p : Int) - 1 = Int.log 2 x := by omega
  rw [h2]
  exact h1

theorem roundBits_zero (p : Nat) (emin : Int) : roundBits p emin 0 = 0 := by
  unfold roundBits
  have : roundEven ((0 : ℚ) / (2 : ℚ) ^ lastPlace p emin 0) = 0 := by
    rw [zero_div]
    exact roundEven_intCast 0
  rw [this]
  simp

theorem roundBits_nonneg (p : Nat) (emin : Int) (x : ℚ) (hx : 0 ≤ x) :
    0 ≤ roundBits p emin x := by
  unfold roundBits
  have hm : ((0 : Int) : ℚ) ≤ x / (2 : ℚ) ^ lastPlace p emin x := by
    simpa using div_nonneg hx (le_of_lt (two_zpow_pos _))
  have h0 : (0 : Int) ≤ roundEven (x / (2 : ℚ) ^ lastPlace p emin x) := le_roundEven 0 _ hm
  exact mul_nonneg (by exact_mod_cast h0) (le_of_lt (two_zpow_pos _))

/-- Rounding is monotone on the non-negative numbers. -/
theorem roundBits_mono (p : Nat) (emin : Int) (hp : 1 ≤ p) (x y : ℚ) (hx : 0 ≤ x)
    (h : x ≤ y) : roundBits p emin x ≤ roundBits p emin y := by
  rcases eq_or_lt_of_le hx with h0 | hpos
  · rw [← h0, roundBits_zero]
    exact roundBits_nonneg p emin y (le_trans hx h)
  · have hy : 0 < y := lt_of_lt_of_le hpos h
    have he := lastPlace_mono p emin x y hpos h
    rcases eq_or_lt_of_le he with heq | hlt
    · unfold roundBits
      rw [heq]
      have hdiv : x / (2 : ℚ) ^ lastPlace p emin y ≤ y / (2 : ℚ) ^ lastPlace p emin y :=
        div_le_div_of_nonneg_right h (le_of_lt (two_zpow_pos _))
      have := roundEven_mono _ _ hdiv
      exact mul_le_mul_of_nonneg_right (by exact_mod_cast this) (le_of_lt (two_zpow_pos _))
    · obtain ⟨q, rfl⟩ : ∃ q, p = q + 1 := ⟨p - 1, by omega⟩
      have h2 : (2 : ℚ) ≠ 0 := by norm_num
      have hxlt := lt_zpow_lastPlace (q + 1) emin x hpos
      have hemin : emin ≤ lastPlace (q + 1) emin x := le_max_right _ _
      have hyge := zpow_lastPlace_le (q + 1) emin y hy (by omega)
      -- the significand of `x` is at most `2 ^ (q + 1)`
      have hxm : x / (2 : ℚ) ^ lastPlace (q + 1) emin x ≤ (((2 : Int) ^ (q + 1) : Int) : ℚ) := by
        rw [div_le_iff₀ (two_zpow_pos _)]
        have : (((2 : Int) ^ (q + 1) : Int) : ℚ) * (2 : ℚ) ^ lastPlace (q + 1) emin x
            = (2 : ℚ) ^ (lastPlace (q + 1) emin x + ((q + 1 : Nat) : Int)) := by
          rw [zpow_add₀ h2, zpow_natCast]
          push_cast
          ring
        rw [this]
        exact le_of_lt hxlt
      -- the significand of `y` is at least `2 ^ q`
      have hym : (((2 : Int) ^ q : Int) : ℚ) ≤ y / (2 : ℚ) ^ lastPlace (q + 1) emin y := by
        rw [le_div_iff₀ (two_zpow_pos _)]
        have : (((2 : Int) ^ q : Int) : ℚ) * (2 : ℚ) ^ lastPlace (q + 1) emin y
            = (2 : ℚ) ^ (lastPlace (q + 1) emin y + ((q + 1 : Nat) : Int) - 1) := by
          have hexp : lastPlace (q + 1) emin y + ((q + 1 : Nat) : Int) - 1
              = lastPlace (q + 1) emin y + (q : Int) := by
            push_cast
            ring
          rw [hexp, zpow_add₀ h2, zpow_natCast]
          push_cast
          ring
        rw [this]
        exact hyge
      have hrx := roundEven_le _ _ hxm
      have hry := le_roundEven _ _ hym
      have hrxq : (roundEven (x / (2 : ℚ) ^ lastPlace (q + 1) emin x) : ℚ)
          ≤ (2 : ℚ) ^ (q + 1) := by exact_mod_cast hrx
      have hryq : (2 : ℚ) ^ q
          ≤ (roundEven (y / (2 : ℚ) ^ lastPlace (q + 1) emin y) : ℚ) := by exact_mod_cast hry
      unfold roundBits
      calc (roundEven (x / (2 : ℚ) ^ lastPlace (q + 1) emin x) : ℚ)
              * (2 : ℚ) ^ lastPlace (q + 1) emin x
          ≤ (2 : ℚ) ^ (q + 1) * (2 : ℚ) ^ lastPlace (q + 1) emin x :=
            mul_le_mul_of_nonneg_right hrxq (le_of_lt (two_zpow_pos _))
        _ = (2 : ℚ) ^ (lastPlace (q + 1) emin x + 1 + (q : Int)) := by
            rw [zpow_add₀ h2, zpow_add₀ h2, zpow_natCast, zpow_one]
            ring
        _ ≤ (2 : ℚ) ^ (lastPlace (q + 1) emin y + (q : Int)) :=
            zpow_le_zpow_right₀ (by norm_num) (by omega)
        _ = (2 : ℚ) ^ q * (2 : ℚ) ^ lastPlace (q + 1) emin y := by
            rw [zpow_add₀ h2, zpow_natCast]
            ring
        _ ≤ (roundEven (y / (2 : ℚ) ^ lastPlace (q + 1) emin y) : ℚ)
              * (2 : ℚ) ^ lastPlace (q + 1) emin y :=
            mul_le_mul_of_nonneg_right hryq (le_of_lt (two_zpow_pos _))

/-- The exponent of the last place of a positive number whose binade is known. -/
theorem lastPlace_eq (p : Nat) (emin : Int) (x : ℚ) (k e : Int) (hlo : (2 : ℚ) ^ k ≤ x)
    (hhi : x < (2 : ℚ) ^ (k + 1)) (he : max (k - ((p : Int) - 1)) emin = e) :
    lastPlace p emin x = e := by
  have hpos : 0 < x := lt_of_lt_of_le (two_zpow_pos k) hlo
  have h1 : k ≤ Int.log 2 x := by
    rw [← Int.zpow_le_iff_le_log (by norm_num) hpos]
    simpa using hlo
  have h2 : Int.log 2 x < k + 1 := by
    rw [← Int.lt_zpow_iff_log_lt (by norm_num) hpos]
    simpa using hhi
  have h3 : Int.log 2 x = k := by omega
  unfold lastPlace
  rw [abs_of_pos hpos, h3, he]

/-- A positive number that fits the format is its own rounding. -/
theorem roundBits_exact (p : Nat) (emin : Int) (x : ℚ) (k e n : Int)
    (hlo : (2 : ℚ) ^ k ≤ x) (hhi : x < (2 : ℚ) ^ (k + 1))
    (he : max (k - ((p : Int) - 1)) emin = e) (hx : x = (n : ℚ) * (2 : ℚ) ^ e) :
    roundBits p emin x = x := by
  unfold roundBits
  rw [lastPlace_eq p emin x k e hlo hhi he]
  have : x / (2 : ℚ) ^ e = (n : ℚ) := by
    rw [hx, mul_div_assoc, div_self (ne_of_gt (two_zpow_pos e)), mul_one]
  rw [this, roundEven_intCast, ← hx]

/-- The rounding of a positive number whose binade and rounded significand are known. -/
theorem roundBits_eval (p : Nat) (emin : Int) (x : ℚ) (k e n : Int)
    (hlo : (2 : ℚ) ^ k ≤ x) (hhi : x < (2 : ℚ) ^ (k + 1))
    (he : max (k - ((p : Int) - 1)) emin = e)
    (hn : roundEven (x / (2 : ℚ) ^ e) = n) :
    roundBits p emin x = (n : ℚ) * (2 : ℚ) ^ e := by
  unfold roundBits
  rw [lastPlace_eq p emin x k e hlo hhi he, hn]

theorem float_zero : float 0 = 0 := roundBits_zero 24 (-149)

theorem double_zero : double 0 = 0 := roundBits_zero 53 (-1074)

theorem float_one : float 1 = 1 := by
  apply roundBits_exact 24 (-149) 1 0 (-23) 8388608 <;> norm_num

theorem double_one : double 1 = 1 := by
  apply roundBits_exact 53 (-1074) 1 0 (-52) 4503599627370496 <;> norm_num

theorem float_mono (x y : ℚ) (hx : 0 ≤ x) (h : x ≤ y) : float x ≤ float y :=
  roundBits_mono 24 (-149) (by decide) x y hx h

theorem double_mono (x y : ℚ) (hx : 0 ≤ x) (h : x ≤ y) : double x ≤ double y :=
  roundBits_mono 53 (-1074) (by decide) x y hx h

theorem float_nonneg (x : ℚ) (hx : 0 ≤ x) : 0 ≤ float x := roundBits_nonneg 24 (-149) x hx

theorem double_nonneg (x : ℚ) (hx : 0 ≤ x) : 0 ≤ double x := roundBits_nonneg 53 (-1074) x hx

theorem float_two : float 2 = 2 := by
  apply roundBits_exact 24 (-149) 2 1 (-22) 8388608 <;> norm_num

theorem float_three : float 3 = 3 := by
  apply roundBits_exact 24 (-149) 3 1 (-22) 12582912 <;> norm_num

theorem float_four : float 4 = 4 := by
  apply roundBits_exact 24 (-149) 4 2 (-21) 8388608 <;> norm_num

theorem float_third : float (1 / 3) = 11184811 / 33554432 := by
  have h := roundBits_eval 24 (-149) (1 / 3) (-2) (-25) 11184811
    (by norm_num) (by norm_num) (by norm_num)
    (by apply roundEven_eq_of_near <;> norm_num)
  unfold float
  rw [h]
  norm_num

theorem float_two_thirds : float (2 / 3) = 11184811 / 16777216 := by
  have h := roundBits_eval 24 (-149) (2 / 3) (-1) (-24) 11184811
    (by norm_num) (by norm_num) (by norm_num)
    (by apply roundEven_eq_of_near <;> norm_num)
  unfold float
  rw [h]
  norm_num

theorem float_three_quarters : float (3 / 4) = 3 / 4 := by
  apply roundBits_exact 24 (-149) (3 / 4) (-1) (-24) 12582912 <;> norm_num

theorem double_22369621 : double (22369621 / 33554432) = 22369621 / 33554432 := by
  apply roundBits_exact 53 (-1074) _ (-1) (-53) (22369621 * 268435456) <;> norm_num

theorem double_5592405 : double (5592405 / 16777216) = 5592405 / 16777216 := by
  apply roundBits_exact 53 (-1074) _ (-2) (-54) (5592405 * 1073741824) <;> norm_num

theorem double_11184811_25 : double (11184811 / 33554432) = 11184811 / 33554432 := by
  apply roundBits_exact 53 (-1074) _ (-2) (-54) (11184811 * 536870912) <;> norm_num

theorem double_11184811_24 : double (11184811 / 16777216) = 11184811 / 16777216 := by
  apply roundBits_exact 53 (-1074) _ (-1) (-53) (11184811 * 536870912) <;> norm_num

theorem double_quarter : double (1 / 4) = 1 / 4 := by
  apply roundBits_exact 53 (-1074) _ (-2) (-54) 4503599627370496 <;> norm_num

/-- `(float) 16777217` is 16777216: the tie goes to the even significand. -/
theorem float_16777217 : float 16777217 = 16777216 := by
  have h := roundBits_eval 24 (-149) 16777217 24 1 8388608
    (by norm_num) (by norm_num) (by norm_num)
    (by apply roundEven_tie_even <;> norm_num)
  unfold float
  rw [h]
  norm_num

theorem float_16777216 : float 16777216 = 16777216 := by
  apply roundBits_exact 24 (-149) _ 24 1 8388608 <;> norm_num

theorem float_16777218 : float 16777218 = 16777218 := by
  apply roundBits_exact 24 (-149) _ 24 1 8388609 <;> norm_num

theorem float_16777216_of_16777218 :
    float (16777216 / 16777218) = 8388607 / 8388608 := by
  have h := roundBits_eval 24 (-149) (16777216 / 16777218) (-1) (-24) 16777214
    (by norm_num) (by norm_num) (by norm_num)
    (by apply roundEven_eq_of_near <;> norm_num)
  unfold float
  rw [h]
  norm_num

theorem double_8388607 : double (8388607 / 8388608) = 8388607 / 8388608 := by
  apply roundBits_exact 53 (-1074) _ (-1) (-53) (8388607 * 1073741824) <;> norm_num

theorem float_natCast_pos (T : Nat) (hT : 1 ≤ T) : 0 < float (T : ℚ) := by
  have h1 : (1 : ℚ) ≤ (T : ℚ) := by exact_mod_cast hT
  have := float_mono 1 (T : ℚ) (by norm_num) h1
  rw [float_one] at this
  linarith

/-- The quotient of line 226 at the last tick of a fade: `T / T` is 1. -/
theorem percent_full (T : Nat) (hT : 1 ≤ T) :
    float (float (T : ℚ) / float (T : ℚ)) = 1 := by
  rw [div_self (ne_of_gt (float_natCast_pos T hT)), float_one]

theorem percent_nonneg (k T : Nat) : 0 ≤ float (float (k : ℚ) / float (T : ℚ)) :=
  float_nonneg _ (div_nonneg (float_nonneg _ (Nat.cast_nonneg k))
    (float_nonneg _ (Nat.cast_nonneg T)))

theorem percent_mono (k1 k2 T : Nat) (h : k1 ≤ k2) :
    float (float (k1 : ℚ) / float (T : ℚ)) ≤ float (float (k2 : ℚ) / float (T : ℚ)) := by
  have hk : float (k1 : ℚ) ≤ float (k2 : ℚ) :=
    float_mono _ _ (Nat.cast_nonneg k1) (by exact_mod_cast h)
  have hT : 0 ≤ float (T : ℚ) := float_nonneg _ (Nat.cast_nonneg T)
  exact float_mono _ _ (div_nonneg (float_nonneg _ (Nat.cast_nonneg k1)) hT)
    (div_le_div_of_nonneg_right hk hT)

theorem percent_le_one (k T : Nat) (hk : k ≤ T) (hT : 1 ≤ T) :
    float (float (k : ℚ) / float (T : ℚ)) ≤ 1 := by
  have := percent_mono k T T hk
  rwa [percent_full T hT] at this

theorem outputVolume_FadeIn (g : ℚ) (o : Output) (p : Option Player) (tc tt : Int) :
    outputVolume g { output := o, player := p, direction := Direction.FadeIn,
                     ticksCounted := tc, ticksTotal := tt }
      = double (g * float (float (tc : ℚ) / float (tt : ℚ))) := by
  have hd : ¬ Direction.FadeIn = Direction.FadeOut := by decide
  simp only [outputVolume, hd, if_false]

theorem outputVolume_FadeOut (g : ℚ) (o : Output) (p : Option Player) (tc tt : Int) :
    outputVolume g { output := o, player := p, direction := Direction.FadeOut,
                     ticksCounted := tc, ticksTotal := tt }
      = double (g * double (1 - float (float (tc : ℚ) / float (tt : ℚ)))) := by
  simp only [outputVolume, if_true]

/-- The first volume of a fade-out of 3 ticks with global volume 1. -/
theorem volume_out_1_of_3 :
    double (1 * double (1 - float (float 1 / float 3))) = 22369621 / 33554432 := by
  rw [float_one, float_three, float_third, one_mul]
  norm_num
  rw [double_22369621, double_22369621]

/-- The second volume of a fade-out of 3 ticks with global volume 1. -/
theorem volume_out_2_of_3 :
    double (1 * double (1 - float (float 2 / float 3))) = 5592405 / 16777216 := by
  rw [float_two, float_three, float_two_thirds, one_mul]
  norm_num
  rw [double_5592405, double_5592405]

/-- The third volume of a fade-out of 3 ticks with global volume 1. -/
theorem volume_out_3_of_3 :
    double (1 * double (1 - float (float 3 / float 3))) = 0 := by
  rw [float_three, div_self (by norm_num : (3 : ℚ) ≠ 0), float_one, sub_self,
    double_zero, mul_zero, double_zero]

theorem TICK_TIME_MILLIS_eq : TICK_TIME_MILLIS = 100 := by decide

theorem remove_if_eq_filter (pred : FadeContext → Bool) (l : List FadeContext) :
    remove_if pred l = l.filter (fun c => !pred c) := by
  induction l with
  | nil => rfl
  | cons c rest ih =>
    simp only [remove_if, List.filter_cons]
    by_cases h : pred c = true
    · simp [h, ih]
    · simp [h, ih]

theorem markDone_eq (k : Nat) (contexts : List FadeContext) :
    markDone k contexts =
      (contexts.take k).map (fun c => { c with ticksCounted := c.ticksTotal })
        ++ contexts.drop k := by
  induction k generalizing contexts with
  | zero => simp [markDone]
  | succ k ih =>
    cases contexts with
    | nil => simp [markDone]
    | cons c rest => simp [markDone, ih]

theorem markDone_length (k : Nat) (contexts : List FadeContext) :
    (markDone k contexts).length = contexts.length := by
  induction k generalizing contexts with
  | zero => simp [markDone]
  | succ k ih =>
    cases contexts with
    | nil => simp [markDone]
    | cons c rest => simp [markDone, ih]

theorem Contains_eq_false_iff (s : State) (p : Player) :
    Contains s (some p) = false ↔ ∀ c ∈ s.contextList, c.player ≠ some p := by
  simp only [Contains, List.any_eq_false, decide_eq_true_eq]
  constructor
  · intro h c hc hcp
    exact h c hc hcp.symm
  · intro h c hc hcp
    exact h c hc hcp.symm

theorem Fade_of_Contains (s : State) (player : Option Player) (output : Output)
    (direction : Direction) (durationMs : Int) (h : Contains s player = true) :
    Fade s player output direction durationMs = s := by
  simp [Fade, h]

/-- The whole state `Fade` leaves when the player is not yet in the list. -/
theorem Fade_eq_of_not_Contains (s : State) (player : Option Player) (output : Output)
    (direction : Direction) (durationMs : Int) (h : Contains s player = false) :
    Fade s player output direction durationMs =
      { s with
        contextList :=
          (s.contextList.take (s.contextList.length + 1 - 3)).map
              (fun c => { c with ticksCounted := c.ticksTotal })
            ++ s.contextList.drop (s.contextList.length + 1 - 3)
            ++ [{ output := output, player := player, direction := direction,
                  ticksCounted := 0, ticksTotal := Int.tdiv durationMs 100 }]
        messageQueue :=
          if s.contextList.length = 0 then s.messageQueue ++ [100] else s.messageQueue } := by
  have hk : s.contextList.length + 1 - 3 ≤ s.contextList.length := by omega
  have hlist : ∀ (c : FadeContext),
      markDone (s.contextList.length + 1 - 3) (s.contextList ++ [c]) =
        (s.contextList.take (s.contextList.length + 1 - 3)).map
          (fun c => { c with ticksCounted := c.ticksTotal })
        ++ s.contextList.drop (s.contextList.length + 1 - 3) ++ [c] := by
    intro c
    rw [markDone_eq, List.take_append_of_le_length hk, List.drop_append_of_le_length hk,
      List.append_assoc]
  unfold Fade
  simp only [h, if_true, TICK_TIME_MILLIS_eq, MAX_FADES, List.length_append, List.length_singleton]
  by_cases hn : ((s.contextList.length + 1 : Nat) : Int) - 3 > 0
  · have hto : (((s.contextList.length + 1 : Nat) : Int) - 3).toNat
        = s.contextList.length + 1 - 3 := by omega
    have h0 : s.contextList.length ≠ 0 := by omega
    simp only [hn, if_true, hto, hlist, h0, if_false, List.length_append, List.length_map,
      List.length_take, List.length_drop, List.length_singleton]
    rw [if_neg (by omega)]
  · have hz : s.contextList.length + 1 - 3 = 0 := by omega
    simp only [hn, if_false, hz, List.take_zero, List.map_nil, List.drop_zero, List.nil_append,
      List.length_append, List.length_singleton]
    by_cases h0 : s.contextList.length = 0
    · simp [h0, ENQUEUE_TICK, Post, TICK_TIME_MILLIS_eq]
    · simp [h0, ENQUEUE_TICK, Post, TICK_TIME_MILLIS_eq]

theorem Fade_calls (s : State) (player : Option Player) (output : Output)
    (direction : Direction) (durationMs : Int) :
    (Fade s player output direction durationMs).calls = s.calls := by
  cases h : Contains s player
  · rw [Fade_eq_of_not_Contains s player output direction durationMs h]
  · rw [Fade_of_Contains s player output direction durationMs h]

theorem Fade_queries (s : State) (player : Option Player) (output : Output)
    (direction : Direction) (durationMs : Int) :
    (Fade s player output direction durationMs).queries = s.queries := by
  cases h : Contains s player
  · rw [Fade_eq_of_not_Contains s player output direction durationMs h]
  · rw [Fade_of_Contains s player output direction durationMs h]

theorem Fade_paused (s : State) (player : Option Player) (output : Output)
    (direction : Direction) (durationMs : Int) :
    (Fade s player output direction durationMs).paused = s.paused := by
  cases h : Contains s player
  · rw [Fade_eq_of_not_Contains s player output direction durationMs h]
  · rw [Fade_of_Contains s player output direction durationMs h]

/-! ## C1, C2: `Fade` -/

/-- C1: for a non-null player that no context targets and a non-negative
duration, `Fade` keeps the old contexts in order and appends one context with
that player, output and direction, `ticksCounted = 0` and
`ticksTotal = durationMs / 100`; exactly the first `n + 1 - 3` (truncated at 0)
old contexts get `ticksCounted := ticksTotal` and nothing else in them changes;
the appended context is not among them; no call is made on an output or a
player, no transport query is made, the paused flag is kept; and one tick (delay
100) is posted exactly when the list was empty before. -/
theorem Fade_new_player (s : State) (p : Player) (output : Output) (direction : Direction)
    (durationMs : Int) (hd : 0 ≤ durationMs)
    (hp : ∀ c ∈ s.contextList, c.player ≠ some p) :
    (Fade s (some p) output direction durationMs).contextList =
        (s.contextList.take (s.contextList.length + 1 - 3)).map
            (fun c => { c with ticksCounted := c.ticksTotal })
          ++ s.contextList.drop (s.contextList.length + 1 - 3)
          ++ [{ output := output, player := some p, direction := direction,
                ticksCounted := 0, ticksTotal := durationMs / 100 }]
      ∧ (Fade s (some p) output direction durationMs).calls = s.calls
      ∧ (Fade s (some p) output direction durationMs).queries = s.queries
      ∧ (Fade s (some p) output direction durationMs).paused = s.paused
      ∧ (s.contextList = [] →
          (Fade s (some p) output direction durationMs).messageQueue = s.messageQueue ++ [100])
      ∧ (s.contextList ≠ [] →
          (Fade s (some p) output direction durationMs).messageQueue = s.messageQueue) := by
  have h : Contains s (some p) = false := (Contains_eq_false_iff s p).mpr hp
  have hdiv : Int.tdiv durationMs 100 = durationMs / 100 :=
    Int.tdiv_eq_ediv hd (by decide)
  rw [Fade_eq_of_not_Contains s (some p) output direction durationMs h, hdiv]
  refine ⟨rfl, rfl, rfl, rfl, ?_, ?_⟩
  · intro he
    simp [he]
  · intro hne
    have : s.contextList.length ≠ 0 := by
      intro h0
      exact hne (List.length_eq_zero.mp h0)
    simp [this]

/-- Witness of C1: a fourth fade, for player 7 and 250 ms, on `threeFades`
completes the oldest context and appends a context of 2 ticks. -/
theorem Fade_new_player_witness :
    (0 : Int) ≤ 250 ∧ (∀ c ∈ threeFades.contextList, c.player ≠ some 7)
      ∧ (Fade threeFades (some 7) 13 Direction.FadeIn 250).contextList =
          [ { output := 10, player := some 1, direction := Direction.FadeOut,
              ticksCounted := 5, ticksTotal := 5 },
            { output := 11, player := some 2, direction := Direction.FadeIn,
              ticksCounted := 0, ticksTotal := 3 },
            { output := 12, player := none, direction := Direction.FadeOut,
              ticksCounted := 2, ticksTotal := 4 },
            { output := 13, player := some 7, direction := Direction.FadeIn,
              ticksCounted := 0, ticksTotal := 2 } ]
      ∧ (Fade threeFades (some 7) 13 Direction.FadeIn 250).messageQueue = [100] := by
  have h := Fade_new_player threeFades 7 13 Direction.FadeIn 250 (by decide) (by decide)
  refine ⟨by decide, by decide, ?_, ?_⟩
  · rw [h.1]
    decide
  · rw [h.2.2.2.2.2 (by decide)]
    rfl

/-- C2: `Fade` for a player that some context already targets changes nothing:
the whole state (contexts, queue, call log, query log, paused flag) is the
same, whatever the output, direction and duration. -/
theorem Fade_same_player (s : State) (p : Player) (output : Output) (direction : Direction)
    (durationMs : Int) (hp : ∃ c ∈ s.contextList, c.player = some p) :
    Fade s (some p) output direction durationMs = s := by
  apply Fade_of_Contains
  obtain ⟨c, hc, hcp⟩ := hp
  simp only [Contains, List.any_eq_true, decide_eq_true_eq]
  exact ⟨c, hc, hcp.symm⟩

/-- Witness of C2: player 2 is already fading in `threeFades`. -/
theorem Fade_same_player_witness :
    (∃ c ∈ threeFades.contextList, c.player = some 2)
      ∧ Fade threeFades (some 2) 99 Direction.FadeOut 1000 = threeFades :=
  ⟨by decide, Fade_same_player threeFades 2 99 Direction.FadeOut 1000 (by decide)⟩

/-! ## The tick -/

theorem tickLoop_contextList (g : ℚ) (m : Nat → Bool) (asked : Nat) (l : List FadeContext) :
    (tickLoop g m asked l).contextList =
      (l.map advance).filter (fun c => decide (c.ticksCounted < c.ticksTotal)) := by
  induction l generalizing asked with
  | nil => simp [tickLoop]
  | cons fade rest ih =>
    simp only [tickLoop, List.map_cons]
    by_cases hdone : (advance fade).ticksCounted ≥ (advance fade).ticksTotal
    · have hnot : ¬ (advance fade).ticksCounted < (advance fade).ticksTotal := by omega
      simp only [hdone, if_true, List.filter_cons, hnot, decide_False]
      exact ih _
    · have hlt : (advance fade).ticksCounted < (advance fade).ticksTotal := by omega
      simp only [hdone, if_false, List.filter_cons, hlt, decide_True, if_true]
      rw [ih]

theorem advance_mid_iff (c : FadeContext) :
    (advance c).ticksCounted < (advance c).ticksTotal ↔ c.ticksCounted + 1 < c.ticksTotal := by
  unfold advance
  split
  · simp
  · constructor
    · intro h
      omega
    · intro h
      omega

theorem advance_of_mid (c : FadeContext) (h : c.ticksCounted < c.ticksTotal) :
    advance c = { c with ticksCounted := c.ticksCounted + 1 } := by
  simp [advance, h]

theorem advance_of_not_mid (c : FadeContext) (h : ¬ c.ticksCounted < c.ticksTotal) :
    advance c = c := by
  simp [advance, h]

theorem filter_map_advance (l : List FadeContext) :
    (l.map advance).filter (fun c => decide (c.ticksCounted < c.ticksTotal)) =
      (l.filter (fun c => decide (c.ticksCounted + 1 < c.ticksTotal))).map
        (fun c => { c with ticksCounted := c.ticksCounted + 1 }) := by
  induction l with
  | nil => rfl
  | cons c rest ih =>
    simp only [List.map_cons, List.filter_cons, advance_mid_iff]
    by_cases h : c.ticksCounted + 1 < c.ticksTotal
    · have hmid : c.ticksCounted < c.ticksTotal := by omega
      simp only [h, decide_True, if_true, List.map_cons, ih, advance_of_mid c hmid]
    · simp only [h, decide_False, ih]
      rfl

theorem ProcessMessage_contextList (s : State) (t : Transport) :
    (ProcessMessage s MESSAGE_TICK t).contextList =
      (tickLoop t.Volume t.IsMuted 0 s.contextList).contextList := by
  unfold ProcessMessage
  simp only [if_true]
  split <;> rfl

theorem ProcessMessage_calls (s : State) (t : Transport) :
    (ProcessMessage s MESSAGE_TICK t).calls =
      s.calls ++ (tickLoop t.Volume t.IsMuted 0 s.contextList).calls := by
  unfold ProcessMessage
  simp only [if_true]
  split <;> rfl

theorem ProcessMessage_paused (s : State) (t : Transport) :
    (ProcessMessage s MESSAGE_TICK t).paused = s.paused := by
  unfold ProcessMessage
  simp only [if_true]
  split <;> rfl

theorem ProcessMessage_survivors (s : State) (t : Transport) :
    (ProcessMessage s MESSAGE_TICK t).contextList =
      (s.contextList.filter (fun c => decide (c.ticksCounted + 1 < c.ticksTotal))).map
        (fun c => { c with ticksCounted := c.ticksCounted + 1 }) := by
  rw [ProcessMessage_contextList, tickLoop_contextList, filter_map_advance]

/-! ## Runs -/

theorem run_nil (s : State) : run s [] = s := rfl

theorem run_cons (s : State) (op : Op) (ops : List Op) :
    run s (op :: ops) = run (step s op) ops := rfl

theorem run_append (s : State) (ops ops2 : List Op) :
    run s (ops ++ ops2) = run (run s ops) ops2 := by
  simp [run, List.foldl_append]

/-- A property kept by every permitted step holds after every run of permitted steps. -/
theorem run_invariant (P : State → Prop) (Q : Op → Prop)
    (hstep : ∀ s op, Q op → P s → P (step s op)) :
    ∀ (ops : List Op) (s : State), (∀ op ∈ ops, Q op) → P s → P (run s ops) := by
  intro ops
  induction ops with
  | nil =>
    intro s _ hs
    exact hs
  | cons op ops ih =>
    intro s hq hs
    rw [run_cons]
    exact ih (step s op) (fun o ho => hq o (List.mem_cons_of_mem _ ho))
      (hstep s op (hq op (List.mem_cons_self _ _)) hs)

theorem step_Tick_contextList (s : State) (i : Nat) (t : Transport) :
    (step s (Op.Tick i t)).contextList = s.contextList ∨
      (step s (Op.Tick i t)).contextList =
        (s.contextList.filter (fun c => decide (c.ticksCounted + 1 < c.ticksTotal))).map
          (fun c => { c with ticksCounted := c.ticksCounted + 1 }) := by
  simp only [step]
  split
  · right
    rw [ProcessMessage_survivors]
  · left
    rfl

/-! ## C3: at most three fades in progress -/

theorem midCount_Fade (s : State) (player : Option Player) (output : Output)
    (direction : Direction) (durationMs : Int) (h : Contains s player = false) :
    ((Fade s player output direction durationMs).contextList.filter
      (fun c => decide (c.ticksCounted < c.ticksTotal))).length ≤ 3 := by
  rw [Fade_eq_of_not_Contains s player output direction durationMs h]
  simp only [List.filter_append, List.length_append]
  have h1 : ((s.contextList.take (s.contextList.length + 1 - 3)).map
      (fun c => ({ c with ticksCounted := c.ticksTotal } : FadeContext))).filter
        (fun c => decide (c.ticksCounted < c.ticksTotal)) = [] := by
    rw [List.filter_eq_nil_iff]
    intro a ha
    simp only [List.mem_map] at ha
    obtain ⟨c, _, rfl⟩ := ha
    simp
  have h2 := List.length_filter_le (fun c : FadeContext => decide (c.ticksCounted < c.ticksTotal))
    (s.contextList.drop (s.contextList.length + 1 - 3))
  have h3 := List.length_filter_le (fun c : FadeContext => decide (c.ticksCounted < c.ticksTotal))
    [({ output := output, player := player, direction := direction,
        ticksCounted := 0, ticksTotal := Int.tdiv durationMs 100 } : FadeContext)]
  rw [h1]
  simp only [List.length_nil, List.length_drop, List.length_singleton] at h2 h3 ⊢
  omega

theorem midCount_step (s : State) (op : Op)
    (hs : (s.contextList.filter (fun c => decide (c.ticksCounted < c.ticksTotal))).length ≤ 3) :
    ((step s op).contextList.filter
      (fun c => decide (c.ticksCounted < c.ticksTotal))).length ≤ 3 := by
  cases op with
  | Fade player output direction durationMs =>
    simp only [step]
    cases h : Contains s player
    · exact midCount_Fade s player output direction durationMs h
    · rw [Fade_of_Contains s player output direction durationMs h]
      exact hs
  | Stop => simp [step, Stop]
  | OnPlayerDestroyed player =>
    cases player with
    | none => exact hs
    | some p =>
      simp only [step, OnPlayerDestroyed, List.filter_map, List.length_map]
      have : ((fun c : FadeContext => decide (c.ticksCounted < c.ticksTotal)) ∘
          fun context : FadeContext =>
            if context.player = some p then { context with player := none } else context)
          = fun c : FadeContext => decide (c.ticksCounted < c.ticksTotal) := by
        funext c
        simp only [Function.comp]
        split <;> rfl
      rw [this]
      exact hs
  | Cancel player direction =>
    cases player with
    | none => exact hs
    | some p =>
      simp only [step, Cancel, remove_if_eq_filter]
      exact le_trans (List.Sublist.length_le
        (List.Sublist.filter _ (List.filter_sublist _))) hs
  | Pause => exact hs
  | Resume => exact hs
  | Reset => simp [step, Reset]
  | Tick i t =>
    rcases step_Tick_contextList s i t with h | h
    · rw [h]
      exact hs
    · rw [h]
      refine le_trans ?_ hs
      refine le_trans (List.length_filter_le _ _) ?_
      rw [List.length_map]
      apply List.Sublist.length_le
      apply List.monotone_filter_right
      intro a ha
      simp only [decide_eq_true_eq] at ha ⊢
      omega

theorem ProcessMessage_done_head (s : State) (t : Transport) (c : FadeContext)
    (rest : List FadeContext) (hs : s.contextList = c :: rest)
    (hc : c.ticksCounted ≥ c.ticksTotal) :
    (ProcessMessage s MESSAGE_TICK t).contextList =
      (ProcessMessage { s with contextList := rest } MESSAGE_TICK t).contextList := by
  have hno : ¬ c.ticksCounted + 1 < c.ticksTotal := by omega
  rw [ProcessMessage_survivors, ProcessMessage_survivors, hs]
  simp [List.filter_cons, hno]

/-- C3: in every state reached from the freshly constructed crossfader by any
sequence of operations and tick deliveries, at most 3 contexts have
`ticksCounted < ticksTotal`; and when a `Fade` takes the list from 3 to 4
contexts, the first context of the new list has `ticksCounted = ticksTotal` and
the next tick drops it: the list after the tick is what the tick makes of the
other three. -/
theorem at_most_three_mid_progress (ops : List Op) :
    ((run init ops).contextList.filter
        (fun c => decide (c.ticksCounted < c.ticksTotal))).length ≤ 3
      ∧ ∀ (player : Option Player) (output : Output) (direction : Direction)
          (durationMs : Int),
          (run init ops).contextList.length = 3 →
          (Fade (run init ops) player output direction durationMs).contextList.length = 4 →
          ∃ oldest rest,
            (Fade (run init ops) player output direction durationMs).contextList
                = oldest :: rest
              ∧ oldest.ticksCounted = oldest.ticksTotal
              ∧ ∀ t : Transport,
                  (ProcessMessage (Fade (run init ops) player output direction durationMs)
                      MESSAGE_TICK t).contextList =
                    (ProcessMessage
                      { Fade (run init ops) player output direction durationMs with
                        contextList := rest } MESSAGE_TICK t).contextList := by
  constructor
  · exact run_invariant
      (fun s => (s.contextList.filter
        (fun c => decide (c.ticksCounted < c.ticksTotal))).length ≤ 3)
      (fun _ => True) (fun s op _ hs => midCount_step s op hs) ops init
      (fun _ _ => trivial) (by simp [init])
  · intro player output direction durationMs h3 h4
    have hc : Contains (run init ops) player = false := by
      cases h : Contains (run init ops) player
      · rfl
      · rw [Fade_of_Contains _ player output direction durationMs h] at h4
        omega
    obtain ⟨a, b, c, habc⟩ := List.length_eq_three.mp h3
    have hlist : (Fade (run init ops) player output direction durationMs).contextList =
        { a with ticksCounted := a.ticksTotal } ::
          [b, c, { output := output, player := player, direction := direction,
                   ticksCounted := 0, ticksTotal := Int.tdiv durationMs 100 }] := by
      rw [Fade_eq_of_not_Contains _ player output direction durationMs hc]
      simp [habc]
    refine ⟨_, _, hlist, rfl, ?_⟩
    intro t
    exact ProcessMessage_done_head _ t _ _ hlist (le_refl _)

/-- Witness of C3: after `fadeThrice` the list has three contexts; a fourth
fade makes it four, of which the first is done and is dropped by the next tick. -/
theorem at_most_three_mid_progress_witness :
    (run init fadeThrice).contextList.length = 3
      ∧ (Fade (run init fadeThrice) (some 4) 13 Direction.FadeIn 500).contextList.length = 4
      ∧ ((run init fadeThrice).contextList.filter
          (fun c => decide (c.ticksCounted < c.ticksTotal))).length ≤ 3
      ∧ ∃ oldest rest,
          (Fade (run init fadeThrice) (some 4) 13 Direction.FadeIn 500).contextList
              = oldest :: rest
            ∧ oldest.ticksCounted = oldest.ticksTotal
            ∧ (ProcessMessage (Fade (run init fadeThrice) (some 4) 13 Direction.FadeIn 500)
                  MESSAGE_TICK (unmuted 1)).contextList =
                (ProcessMessage
                  { Fade (run init fadeThrice) (some 4) 13 Direction.FadeIn 500 with
                    contextList := rest } MESSAGE_TICK (unmuted 1)).contextList := by
  obtain ⟨oldest, rest, h1, h2, h3⟩ :=
    (at_most_three_mid_progress fadeThrice).2 (some 4) 13 Direction.FadeIn 500
      (by decide) (by decide)
  exact ⟨by decide, by decide, (at_most_three_mid_progress fadeThrice).1,
    oldest, rest, h1, h2, h3 (unmuted 1)⟩

/-! ## C4: bounds and monotonicity of `ticksCounted` -/

theorem mem_Fade_contextList (s : State) (player : Option Player) (output : Output)
    (direction : Direction) (durationMs : Int) (c : FadeContext)
    (hc : c ∈ (Fade s player output direction durationMs).contextList) :
    c ∈ s.contextList
      ∨ (∃ o ∈ s.contextList, c = { o with ticksCounted := o.ticksTotal })
      ∨ (Contains s player = false
          ∧ c = { output := output, player := player, direction := direction,
                  ticksCounted := 0, ticksTotal := Int.tdiv durationMs 100 }) := by
  cases h : Contains s player
  · rw [Fade_eq_of_not_Contains s player output direction durationMs h] at hc
    simp only [List.mem_append, List.mem_map, List.mem_singleton] at hc
    rcases hc with (⟨o, ho, rfl⟩ | hc) | hc
    · exact Or.inr (Or.inl ⟨o, List.mem_of_mem_take ho, rfl⟩)
    · exact Or.inl (List.mem_of_mem_drop hc)
    · exact Or.inr (Or.inr ⟨rfl, hc⟩)
  · rw [Fade_of_Contains s player output direction durationMs h] at hc
    exact Or.inl hc

theorem bounds_step (s : State) (op : Op) (hop : Op.nonnegDuration op)
    (hs : ∀ c ∈ s.contextList, 0 ≤ c.ticksCounted ∧ c.ticksCounted ≤ c.ticksTotal) :
    ∀ c ∈ (step s op).contextList,
      0 ≤ c.ticksCounted ∧ c.ticksCounted ≤ c.ticksTotal := by
  intro c hc
  cases op with
  | Fade player output direction durationMs =>
    rcases mem_Fade_contextList s player output direction durationMs c hc with
      h | ⟨o, ho, rfl⟩ | ⟨_, rfl⟩
    · exact hs c h
    · have := hs o ho
      exact ⟨by show 0 ≤ o.ticksTotal; omega, le_refl _⟩
    · have hd : 0 ≤ durationMs := hop
      have : 0 ≤ Int.tdiv durationMs 100 := Int.tdiv_nonneg hd (by decide)
      exact ⟨le_refl _, this⟩
  | Stop => simp [step, Stop] at hc
  | OnPlayerDestroyed player =>
    cases player with
    | none => exact hs c hc
    | some p =>
      simp only [step, OnPlayerDestroyed, List.mem_map] at hc
      obtain ⟨o, ho, rfl⟩ := hc
      split
      · exact hs o ho
      · exact hs o ho
  | Cancel player direction =>
    cases player with
    | none => exact hs c hc
    | some p =>
      simp only [step, Cancel, remove_if_eq_filter] at hc
      exact hs c (List.mem_of_mem_filter hc)
  | Pause => exact hs c hc
  | Resume => exact hs c hc
  | Reset => simp [step, Reset] at hc
  | Tick i t =>
    rcases step_Tick_contextList s i t with h | h
    · rw [h] at hc
      exact hs c hc
    · rw [h] at hc
      simp only [List.mem_map, List.mem_filter, decide_eq_true_eq] at hc
      obtain ⟨o, ⟨ho, hlt⟩, rfl⟩ := hc
      have := hs o ho
      constructor
      · show 0 ≤ o.ticksCounted + 1
        omega
      · show o.ticksCounted + 1 ≤ o.ticksTotal
        omega

theorem Continues_refl (c : FadeContext) : Continues c c :=
  ⟨le_refl _, rfl, rfl, rfl⟩

theorem sublistForall₂_map_of_sublist (f : FadeContext → FadeContext)
    (sub l : List FadeContext) (hsub : sub.Sublist l) (hf : ∀ o ∈ sub, Continues (f o) o) :
    List.SublistForall₂ Continues (sub.map f) l := by
  rw [List.sublistForall₂_iff]
  refine ⟨sub, ?_, hsub⟩
  rw [List.forall₂_map_left_iff, List.forall₂_same]
  exact hf

theorem sublistForall₂_self (l : List FadeContext) :
    List.SublistForall₂ Continues l l := by
  rw [List.sublistForall₂_iff]
  exact ⟨l, List.forall₂_same.mpr (fun c _ => Continues_refl c), List.Sublist.refl l⟩

theorem continues_step (s : State) (op : Op)
    (hs : ∀ c ∈ s.contextList, c.ticksCounted ≤ c.ticksTotal) :
    List.SublistForall₂ Continues
      ((step s op).contextList.take s.contextList.length) s.contextList := by
  cases op with
  | Fade player output direction durationMs =>
    simp only [step]
    cases h : Contains s player
    · rw [Fade_eq_of_not_Contains s player output direction durationMs h]
      have hlen : ((s.contextList.take (s.contextList.length + 1 - 3)).map
            (fun c => ({ c with ticksCounted := c.ticksTotal } : FadeContext))
          ++ s.contextList.drop (s.contextList.length + 1 - 3)).length
            = s.contextList.length := by
        simp only [List.length_append, List.length_map, List.length_take, List.length_drop]
        omega
      simp only []
      rw [List.take_append_of_le_length (le_of_eq hlen.symm), List.take_of_length_le
        (le_of_eq hlen)]
      rw [List.sublistForall₂_iff]
      refine ⟨s.contextList, ?_, List.Sublist.refl _⟩
      have h1 : List.Forall₂ Continues
          ((s.contextList.take (s.contextList.length + 1 - 3)).map
            (fun c => ({ c with ticksCounted := c.ticksTotal } : FadeContext)))
          (s.contextList.take (s.contextList.length + 1 - 3)) := by
        rw [List.forall₂_map_left_iff, List.forall₂_same]
        intro o ho
        exact ⟨hs o (List.mem_of_mem_take ho), rfl, rfl, rfl⟩
      have h2 : List.Forall₂ Continues (s.contextList.drop (s.contextList.length + 1 - 3))
          (s.contextList.drop (s.contextList.length + 1 - 3)) :=
        List.forall₂_same.mpr (fun c _ => Continues_refl c)
      have h3 := List.rel_append h1 h2
      simp only [List.take_append_drop] at h3
      exact h3
    · rw [Fade_of_Contains s player output direction durationMs h, List.take_length]
      exact sublistForall₂_self _
  | Stop =>
    simp only [step, Stop, List.take_nil]
    exact List.SublistForall₂.nil
  | OnPlayerDestroyed player =>
    cases player with
    | none =>
      simp only [step, OnPlayerDestroyed, List.take_length]
      exact sublistForall₂_self _
    | some p =>
      simp only [step, OnPlayerDestroyed]
      rw [List.take_of_length_le (by simp)]
      apply sublistForall₂_map_of_sublist _ _ _ (List.Sublist.refl _)
      intro o _
      split
      · exact ⟨le_refl _, rfl, rfl, rfl⟩
      · exact Continues_refl o
  | Cancel player direction =>
    cases player with
    | none =>
      simp only [step, Cancel, List.take_length]
      exact sublistForall₂_self _
    | some p =>
      simp only [step, Cancel, remove_if_eq_filter]
      rw [List.take_of_length_le (List.length_filter_le _ _)]
      have := sublistForall₂_map_of_sublist id _ _
        (List.filter_sublist (l := s.contextList) (p := fun context =>
          !(decide (context.player = some p) && decide (context.direction = direction))))
        (fun o _ => Continues_refl o)
      simpa using this
  | Pause =>
    simp only [step, Pause, List.take_length]
    exact sublistForall₂_self _
  | Resume =>
    simp only [step, Resume, List.take_length]
    exact sublistForall₂_self _
  | Reset =>
    simp only [step, Reset, List.take_nil]
    exact List.SublistForall₂.nil
  | Tick i t =>
    rcases step_Tick_contextList s i t with h | h
    · rw [h, List.take_length]
      exact sublistForall₂_self _
    · rw [h, List.take_of_length_le
        (by rw [List.length_map]; exact List.length_filter_le _ _)]
      apply sublistForall₂_map_of_sublist _ _ _ (List.filter_sublist _)
      intro o _
      exact ⟨by show o.ticksCounted ≤ o.ticksCounted + 1; omega, rfl, rfl, rfl⟩

/-- C4: when no `Fade` of the run has a negative duration, every context of the
state reached satisfies `0 ≤ ticksCounted ≤ ticksTotal`; whatever step comes
next, the contexts it leaves (a context `Fade` appends aside) are, in order,
contexts of the list before the step whose `ticksCounted` has not gone down and
whose output, direction and `ticksTotal` are the same; and a tick leaves the
contexts that are still below their total after `advance`, where `advance`
raises the `ticksCounted` of a context below its total by exactly 1. -/
theorem ticksCounted_bounded_monotone (ops : List Op)
    (hops : ∀ op ∈ ops, Op.nonnegDuration op) :
    (∀ c ∈ (run init ops).contextList, 0 ≤ c.ticksCounted ∧ c.ticksCounted ≤ c.ticksTotal)
      ∧ (∀ op : Op, List.SublistForall₂ Continues
          ((step (run init ops) op).contextList.take (run init ops).contextList.length)
          (run init ops).contextList)
      ∧ (∀ t : Transport,
          (ProcessMessage (run init ops) MESSAGE_TICK t).contextList =
            ((run init ops).contextList.map advance).filter
              (fun c => decide (c.ticksCounted < c.ticksTotal)))
      ∧ (∀ c : FadeContext, c.ticksCounted < c.ticksTotal →
          advance c = { c with ticksCounted := c.ticksCounted + 1 }) := by
  have hb : ∀ c ∈ (run init ops).contextList,
      0 ≤ c.ticksCounted ∧ c.ticksCounted ≤ c.ticksTotal :=
    run_invariant
      (fun s => ∀ c ∈ s.contextList, 0 ≤ c.ticksCounted ∧ c.ticksCounted ≤ c.ticksTotal)
      Op.nonnegDuration (fun s op hop hs => bounds_step s op hop hs) ops init hops
      (by simp [init])
  refine ⟨hb, ?_, ?_, ?_⟩
  · intro op
    exact continues_step (run init ops) op (fun c hc => (hb c hc).2)
  · intro t
    rw [ProcessMessage_contextList, tickLoop_contextList]
  · intro c hc
    exact advance_of_mid c hc

/-- Witness of C4: after `fadeAndTick` the only context has counted 1 tick of 3. -/
theorem ticksCounted_bounded_monotone_witness :
    (∀ op ∈ fadeAndTick, Op.nonnegDuration op)
      ∧ (run init fadeAndTick).contextList =
          [{ output := 10, player := some 1, direction := Direction.FadeOut,
             ticksCounted := 1, ticksTotal := 3 }]
      ∧ (∀ c ∈ (run init fadeAndTick).contextList,
          0 ≤ c.ticksCounted ∧ c.ticksCounted ≤ c.ticksTotal) := by
  have hops : ∀ op ∈ fadeAndTick, Op.nonnegDuration op := by
    intro op hop
    simp only [fadeAndTick, List.mem_cons, List.mem_singleton, List.not_mem_nil, or_false] at hop
    rcases hop with rfl | rfl
    · show (0 : Int) ≤ 300
      decide
    · trivial
  exact ⟨hops, by decide, (ticksCounted_bounded_monotone fadeAndTick hops).1⟩

/-! ## C5: one context per player -/

theorem Fade_players (s : State) (player : Option Player) (output : Output)
    (direction : Direction) (durationMs : Int) (h : Contains s player = false) :
    (Fade s player output direction durationMs).contextList.map (fun c => c.player) =
      s.contextList.map (fun c => c.player) ++ [player] := by
  rw [Fade_eq_of_not_Contains s player output direction durationMs h]
  simp only [List.map_append, List.map_map, List.map_cons, List.map_nil]
  have : ((fun c : FadeContext => c.player) ∘
      fun c : FadeContext => ({ c with ticksCounted := c.ticksTotal } : FadeContext))
        = fun c : FadeContext => c.player := rfl
  rw [this, ← List.map_append, List.take_append_drop]

theorem players_step (s : State) (op : Op)
    (hs : (s.contextList.map (fun c => c.player)).Pairwise
      (fun a b => ∀ p : Player, a = some p → b ≠ some p)) :
    ((step s op).contextList.map (fun c => c.player)).Pairwise
      (fun a b => ∀ p : Player, a = some p → b ≠ some p) := by
  cases op with
  | Fade player output direction durationMs =>
    simp only [step]
    cases h : Contains s player
    · rw [Fade_players s player output direction durationMs h, List.pairwise_append]
      refine ⟨hs, List.pairwise_singleton _ _, ?_⟩
      intro a ha b hb p hap
      rw [List.mem_singleton] at hb
      subst hb
      intro hbp
      subst hbp
      subst hap
      rw [Contains_eq_false_iff] at h
      simp only [List.mem_map] at ha
      obtain ⟨c, hc, hcp⟩ := ha
      exact h c hc hcp
    · rw [Fade_of_Contains s player output direction durationMs h]
      exact hs
  | Stop => simp [step, Stop]
  | OnPlayerDestroyed player =>
    cases player with
    | none => exact hs
    | some q =>
      simp only [step, OnPlayerDestroyed, List.map_map]
      have hfun : ((fun c : FadeContext => c.player) ∘ fun context : FadeContext =>
          if context.player = some q then { context with player := none } else context)
          = (fun x : Option Player => if x = some q then none else x) ∘
              fun c : FadeContext => c.player := by
        funext c
        simp only [Function.comp]
        split <;> rfl
      rw [hfun, ← List.map_map, List.pairwise_map]
      refine List.Pairwise.imp ?_ hs
      intro a b hab p hap
      by_cases haq : a = some q
      · simp [haq] at hap
      · simp only [haq, if_false] at hap
        by_cases hbq : b = some q
        · simp [hbq]
        · simp only [hbq, if_false]
          exact hab p hap
  | Cancel player direction =>
    cases player with
    | none => exact hs
    | some q =>
      simp only [step, Cancel, remove_if_eq_filter]
      exact List.Pairwise.sublist (List.Sublist.map _ (List.filter_sublist _)) hs
  | Pause => exact hs
  | Resume => exact hs
  | Reset => simp [step, Reset]
  | Tick i t =>
    rcases step_Tick_contextList s i t with h | h
    · rw [h]
      exact hs
    · rw [h, List.map_map]
      have : ((fun c : FadeContext => c.player) ∘
          fun c : FadeContext => ({ c with ticksCounted := c.ticksCounted + 1 } : FadeContext))
            = fun c : FadeContext => c.player := rfl
      rw [this]
      exact List.Pairwise.sublist (List.Sublist.map _ (List.filter_sublist _)) hs

/-- C5: in every state reached from the freshly constructed crossfader by any
sequence of operations and tick deliveries, no two contexts of the list hold
the same non-null player. -/
theorem one_context_per_player (ops : List Op) :
    (run init ops).contextList.Pairwise
      (fun a b => ∀ p : Player, a.player = some p → b.player ≠ some p) := by
  have h := run_invariant
    (fun s => (s.contextList.map (fun c => c.player)).Pairwise
      (fun a b => ∀ p : Player, a = some p → b ≠ some p))
    (fun _ => True) (fun s op _ hs => players_step s op hs) ops init
    (fun _ _ => trivial) (by simp [init])
  exact List.pairwise_map.mp h

/-! ## C6: what a tick removes and shuts down -/

theorem filter_isShutdown_completionCalls (c : FadeContext) :
    (completionCalls c).filter Call.isShutdown = completionCalls c := by
  unfold completionCalls
  split
  · cases c.player <;> simp [Call.isShutdown]
  · rfl

theorem tickLoop_shutdown (g : ℚ) (m : Nat → Bool) (asked : Nat) (l : List FadeContext) :
    (tickLoop g m asked l).calls.filter Call.isShutdown =
      (l.map advance).flatMap (fun c =>
        if c.ticksCounted ≥ c.ticksTotal then completionCalls c else []) := by
  induction l generalizing asked with
  | nil => simp [tickLoop]
  | cons fade rest ih =>
    simp only [tickLoop, List.map_cons, List.flatMap_cons]
    have hvol : (if fade.ticksCounted < fade.ticksTotal then
        [volumeCall g (m asked) (advance fade)] else []).filter Call.isShutdown = [] := by
      split
      · unfold volumeCall
        split <;> simp [Call.isShutdown]
      · rfl
    by_cases hdone : (advance fade).ticksCounted ≥ (advance fade).ticksTotal
    · simp only [hdone, if_true, List.filter_append, hvol, List.nil_append,
        filter_isShutdown_completionCalls, ih]
    · simp only [hdone, if_false, List.filter_append, hvol, List.nil_append, ih]

/-- C6: a tick keeps, in order, exactly the contexts that after the progress
step `advance` are not at or above their total, and removes the others; the
`Stop` and `Destroy` calls it makes are, context by context in list order, for
a removed fade-out a `Destroy` of its player when the player is present followed
by one `Stop` of its output, and nothing for a removed fade-in or for a context
that stays. -/
theorem tick_removes_completed (s : State) (t : Transport) :
    (ProcessMessage s MESSAGE_TICK t).contextList =
        (s.contextList.map advance).filter
          (fun c => !decide (c.ticksCounted ≥ c.ticksTotal))
      ∧ ((ProcessMessage s MESSAGE_TICK t).calls.drop s.calls.length).filter Call.isShutdown =
          (s.contextList.map advance).flatMap (fun c =>
            if c.ticksCounted ≥ c.ticksTotal then
              if c.direction = Direction.FadeOut then
                (match c.player with
                  | some p => [Call.Destroy p]
                  | none => []) ++ [Call.Stop c.output]
              else []
            else []) := by
  constructor
  · rw [ProcessMessage_contextList, tickLoop_contextList]
    congr 1
    funext c
    by_cases h : c.ticksCounted < c.ticksTotal
    · have : ¬ c.ticksCounted ≥ c.ticksTotal := by omega
      simp [h, this]
    · have : c.ticksCounted ≥ c.ticksTotal := by omega
      simp [h, this]
  · rw [ProcessMessage_calls, List.drop_left, tickLoop_shutdown]
    rfl

/-! ## C7: a fade-out from start to end -/

theorem ProcessMessage_messageQueue (s : State) (t : Transport) :
    (ProcessMessage s MESSAGE_TICK t).messageQueue =
      if (ProcessMessage s MESSAGE_TICK t).contextList.length ≠ 0
        then s.messageQueue ++ [100] else s.messageQueue := by
  unfold ProcessMessage
  simp only [if_true]
  split
  · next h => simp [ENQUEUE_TICK, Post, TICK_TIME_MILLIS_eq, h]
  · next h => simp [h]

theorem step_Tick_zero (s : State) (t : Transport) (hq : s.messageQueue ≠ []) :
    step s (Op.Tick 0 t) =
      ProcessMessage { s with messageQueue := s.messageQueue.eraseIdx 0 } MESSAGE_TICK t := by
  have : 0 < s.messageQueue.length := List.length_pos.mpr hq
  simp [step, this]

/-- One tick on a list that holds a single fade-out in progress, no mute. -/
theorem tick_single_fade_out (s : State) (g : ℚ) (p : Player) (o : Output) (k T : Nat)
    (hk : k < T) (hq : s.messageQueue ≠ [])
    (hs : s.contextList = [{ output := o, player := some p, direction := Direction.FadeOut,
                             ticksCounted := (k : Int), ticksTotal := (T : Int) }]) :
    (step s (Op.Tick 0 (unmuted g))).calls =
        s.calls ++ Call.SetVolume o
          (double (g * double (1 - float (float ((k : ℚ) + 1) / float (T : ℚ))))) ::
          (if k + 1 = T then [Call.Destroy p, Call.Stop o] else [])
      ∧ (step s (Op.Tick 0 (unmuted g))).contextList =
          (if k + 1 = T then []
            else [{ output := o, player := some p, direction := Direction.FadeOut,
                    ticksCounted := ((k + 1 : Nat) : Int), ticksTotal := (T : Int) }])
      ∧ (k + 1 ≠ T → (step s (Op.Tick 0 (unmuted g))).messageQueue ≠ []) := by
  have hlt : (k : Int) < (T : Int) := by omega
  have hloop : tickLoop g (fun _ => false) 0 s.contextList =
      if k + 1 = T then
        { contextList := []
          calls := [Call.SetVolume o
          (double (g * double (1 - float (float ((k : ℚ) + 1) / float (T : ℚ))))),
            Call.Destroy p, Call.Stop o]
          mutedQueries := 1 }
      else
        { contextList := [{ output := o, player := some p, direction := Direction.FadeOut,
                            ticksCounted := ((k + 1 : Nat) : Int), ticksTotal := (T : Int) }]
          calls := [Call.SetVolume o
          (double (g * double (1 - float (float ((k : ℚ) + 1) / float (T : ℚ)))))]
          mutedQueries := 1 } := by
    rw [hs]
    by_cases hT : k + 1 = T
    · have hge : (k : Int) + 1 ≥ (T : Int) := by omega
      simp [tickLoop, advance, hlt, hT, hge, volumeCall, outputVolume, completionCalls]
    · have hge : ¬ (k : Int) + 1 ≥ (T : Int) := by omega
      simp [tickLoop, advance, hlt, hT, hge, volumeCall, outputVolume]
  have hloop2 : tickLoop (unmuted g).Volume (unmuted g).IsMuted 0
      ({ s with messageQueue := s.messageQueue.eraseIdx 0 } : State).contextList =
        tickLoop g (fun _ => false) 0 s.contextList := rfl
  rw [step_Tick_zero s (unmuted g) hq]
  refine ⟨?_, ?_, ?_⟩
  · rw [ProcessMessage_calls, hloop2, hloop]
    split <;> rfl
  · rw [ProcessMessage_contextList, hloop2, hloop]
    split <;> rfl
  · intro hT
    rw [ProcessMessage_messageQueue, ProcessMessage_contextList, hloop2, hloop]
    simp [hT]

theorem run_snoc (s : State) (ops : List Op) (op : Op) :
    run s (ops ++ [op]) = step (run s ops) op := by
  rw [run_append]
  rfl

theorem fade_then_ticks_succ (fade tick : Op) (k : Nat) (s : State) :
    run s (fade :: List.replicate (k + 1) tick) =
      step (run s (fade :: List.replicate k tick)) tick := by
  rw [List.replicate_succ', ← List.cons_append, run_snoc]

/-- The state while a single fade-out started on an empty list is in progress. -/
theorem fade_out_in_progress (s : State) (hs : s.contextList = []) (g : ℚ) (p : Player)
    (o : Output) (T k : Nat) (hk : k < T) :
    (run s (Op.Fade (some p) o Direction.FadeOut (100 * (T : Int)) ::
        List.replicate k (Op.Tick 0 (unmuted g)))).contextList =
        [{ output := o, player := some p, direction := Direction.FadeOut,
           ticksCounted := (k : Int), ticksTotal := (T : Int) }]
      ∧ (run s (Op.Fade (some p) o Direction.FadeOut (100 * (T : Int)) ::
          List.replicate k (Op.Tick 0 (unmuted g)))).calls =
          s.calls ++ (List.range k).map
            (fun j : Nat => Call.SetVolume o
              (double (g * double (1 - float (float ((j : ℚ) + 1) / float (T : ℚ))))))
      ∧ (run s (Op.Fade (some p) o Direction.FadeOut (100 * (T : Int)) ::
          List.replicate k (Op.Tick 0 (unmuted g)))).messageQueue ≠ [] := by
  induction k with
  | zero =>
    have hc : Contains s (some p) = false := by simp [Contains, hs]
    have hdiv : Int.tdiv (100 * (T : Int)) 100 = (T : Int) :=
      Int.mul_tdiv_cancel_left _ (by decide)
    simp only [List.replicate_zero, run_cons, run_nil, step]
    rw [Fade_eq_of_not_Contains s (some p) o Direction.FadeOut _ hc, hdiv]
    simp [hs]
  | succ k ih =>
    obtain ⟨h1, h2, h3⟩ := ih (by omega)
    have hne : k + 1 ≠ T := by omega
    obtain ⟨t1, t2, t3⟩ := tick_single_fade_out _ g p o k T (by omega) h3 h1
    rw [fade_then_ticks_succ]
    refine ⟨?_, ?_, t3 hne⟩
    · rw [t2, if_neg hne]
    · rw [t1, h2, if_neg hne, List.range_succ, List.map_append, List.append_assoc]
      simp

/-- The calls of a whole fade-out started on an empty list, and the empty list
it leaves. -/
theorem fade_out_complete (s : State) (hs : s.contextList = []) (g : ℚ) (p : Player)
    (o : Output) (T : Nat) (hT : 1 ≤ T) :
    (run s (Op.Fade (some p) o Direction.FadeOut (100 * (T : Int)) ::
        List.replicate T (Op.Tick 0 (unmuted g)))).calls =
        s.calls ++ (List.range T).map
            (fun j : Nat => Call.SetVolume o
              (double (g * double (1 - float (float ((j : ℚ) + 1) / float (T : ℚ))))))
          ++ [Call.Destroy p, Call.Stop o]
      ∧ (run s (Op.Fade (some p) o Direction.FadeOut (100 * (T : Int)) ::
          List.replicate T (Op.Tick 0 (unmuted g)))).contextList = [] := by
  obtain ⟨n, rfl⟩ : ∃ n, T = n + 1 := ⟨T - 1, by omega⟩
  obtain ⟨h1, h2, h3⟩ := fade_out_in_progress s hs g p o (n + 1) n (by omega)
  obtain ⟨t1, t2, _⟩ := tick_single_fade_out _ g p o n (n + 1) (by omega) h3 h1
  constructor
  · rw [fade_then_ticks_succ, t1, h2, if_pos rfl, List.range_succ, List.map_append]
    simp
  · rw [fade_then_ticks_succ, t2, if_pos rfl]

/-- The volume of the last tick of a fade-out is 0. -/
theorem fade_out_last_volume (g : ℚ) (T : Nat) (hT : 1 ≤ T) :
    double (g * double (1 - float (float (((T - 1 : Nat) : ℚ) + 1) / float (T : ℚ)))) = 0 := by
  have hcast : ((T - 1 : Nat) : ℚ) + 1 = (T : ℚ) := by
    have : T - 1 + 1 = T := by omega
    exact_mod_cast this
  rw [hcast, percent_full T hT, sub_self, double_zero, mul_zero, double_zero]

/-- The calls of a fade-out of 300 ms with global volume 1 on the fresh
crossfader. -/
theorem fade_out_300_calls :
    (run init (Op.Fade (some 1) 10 Direction.FadeOut 300 ::
        List.replicate 3 (Op.Tick 0 (unmuted 1)))).calls =
      [Call.SetVolume 10 (22369621 / 33554432), Call.SetVolume 10 (5592405 / 16777216),
        Call.SetVolume 10 0, Call.Destroy 1, Call.Stop 10] := by
  have h := (fade_out_complete init rfl 1 1 10 3 (by decide)).1
  have h1 : (0 : ℚ) + 1 = 1 := by norm_num
  have h2 : (1 : ℚ) + 1 = 2 := by norm_num
  have h3 : (2 : ℚ) + 1 = 3 := by norm_num
  have hT : ((100 : Int) * 3) = 300 := by norm_num
  simp only [List.range_succ, List.range_zero, List.nil_append, List.map_append,
    List.map_cons, List.map_nil, Nat.cast_zero, Nat.cast_one, Nat.cast_ofNat, h1, h2, h3,
    volume_out_1_of_3, volume_out_2_of_3, volume_out_3_of_3, hT] at h
  rw [h]
  rfl

/-- C7, as stated, fails: with 300 ms and global volume 1 the three volumes
written are 22369621/33554432 (0.6666666567325592), 5592405/16777216
(0.3333333134651184) and 0, not 2/3, 1/3 and 0 (the quotient of line 226 is a
`float`). -/
theorem fade_out_volumes_not_exact :
    (run init (Op.Fade (some 1) 10 Direction.FadeOut 300 ::
        List.replicate 3 (Op.Tick 0 (unmuted 1)))).calls =
        [Call.SetVolume 10 (22369621 / 33554432), Call.SetVolume 10 (5592405 / 16777216),
          Call.SetVolume 10 0, Call.Destroy 1, Call.Stop 10]
      ∧ (run init (Op.Fade (some 1) 10 Direction.FadeOut 300 ::
          List.replicate 3 (Op.Tick 0 (unmuted 1)))).calls ≠
        [Call.SetVolume 10 (1 * (1 - (((0 : Nat) : ℚ) + 1) / ((3 : Nat) : ℚ))),
          Call.SetVolume 10 (1 * (1 - (((1 : Nat) : ℚ) + 1) / ((3 : Nat) : ℚ))),
          Call.SetVolume 10 (1 * (1 - (((2 : Nat) : ℚ) + 1) / ((3 : Nat) : ℚ))),
          Call.Destroy 1, Call.Stop 10] := by
  refine ⟨fade_out_300_calls, ?_⟩
  rw [fade_out_300_calls]
  intro h
  have h1 := (List.cons.inj h).1
  have h2 := Call.SetVolume.inj h1
  norm_num at h2

/-- C7, amended: a fade-out of `100 * T` ms (`T ≥ 1`) started by `Fade` on an
empty list and advanced by `T` ticks with constant global volume `g` and no
mute makes exactly the calls `SetVolume(v 1)`, ..., `SetVolume(v T)`, then
`Destroy` on the player, then `Stop` on the output, and leaves the list empty,
where `v k` is the `double` product of `g` and `1 - q`, `q` being the `float`
quotient of `(float) k` and `(float) T` and `1 - q` taken in `double`; the last
volume `v T` is 0; after `k < T` ticks exactly the first `k` `SetVolume` calls
have been made and the context is still in the list, with `ticksCounted = k`
and `ticksTotal = T`. -/
theorem fade_out_run (s : State) (hs : s.contextList = []) (g : ℚ) (p : Player)
    (o : Output) (T : Nat) (hT : 1 ≤ T) :
    (run s (Op.Fade (some p) o Direction.FadeOut (100 * (T : Int)) ::
        List.replicate T (Op.Tick 0 (unmuted g)))).calls =
        s.calls ++ (List.range T).map
            (fun j : Nat => Call.SetVolume o
              (double (g * double (1 - float (float ((j : ℚ) + 1) / float (T : ℚ))))))
          ++ [Call.Destroy p, Call.Stop o]
      ∧ double (g * double (1 - float (float (((T - 1 : Nat) : ℚ) + 1) / float (T : ℚ)))) = 0
      ∧ (run s (Op.Fade (some p) o Direction.FadeOut (100 * (T : Int)) ::
          List.replicate T (Op.Tick 0 (unmuted g)))).contextList = []
      ∧ ∀ k : Nat, k < T →
          (run s (Op.Fade (some p) o Direction.FadeOut (100 * (T : Int)) ::
              List.replicate k (Op.Tick 0 (unmuted g)))).contextList =
              [{ output := o, player := some p, direction := Direction.FadeOut,
                 ticksCounted := (k : Int), ticksTotal := (T : Int) }]
            ∧ (run s (Op.Fade (some p) o Direction.FadeOut (100 * (T : Int)) ::
                List.replicate k (Op.Tick 0 (unmuted g)))).calls =
                s.calls ++ (List.range k).map
                  (fun j : Nat => Call.SetVolume o
                    (double (g * double (1 - float (float ((j : ℚ) + 1) / float (T : ℚ)))))) := by
  obtain ⟨hcalls, hlist⟩ := fade_out_complete s hs g p o T hT
  refine ⟨hcalls, fade_out_last_volume g T hT, hlist, ?_⟩
  intro k hk
  obtain ⟨a, b, _⟩ := fade_out_in_progress s hs g p o T k hk
  exact ⟨a, b⟩

/-- Witness of C7 amended: 300 ms on the fresh crossfader with global volume 1
gives the volumes 22369621/33554432 (0.6666666567325592), 5592405/16777216
(0.3333333134651184) and 0, then `Destroy` and `Stop`, and an empty list. -/
theorem fade_out_run_witness :
    init.contextList = [] ∧ 1 ≤ 3
      ∧ (run init (Op.Fade (some 1) 10 Direction.FadeOut (100 * ((3 : Nat) : Int)) ::
          List.replicate 3 (Op.Tick 0 (unmuted 1)))).calls =
          [Call.SetVolume 10 (22369621 / 33554432), Call.SetVolume 10 (5592405 / 16777216),
            Call.SetVolume 10 0, Call.Destroy 1, Call.Stop 10]
      ∧ (run init (Op.Fade (some 1) 10 Direction.FadeOut (100 * ((3 : Nat) : Int)) ::
          List.replicate 3 (Op.Tick 0 (unmuted 1)))).contextList = [] := by
  have h := fade_out_run init rfl 1 1 10 3 (by decide)
  refine ⟨rfl, by decide, ?_, h.2.2.1⟩
  have hc := h.1
  have h1 : (0 : ℚ) + 1 = 1 := by norm_num
  have h2 : (1 : ℚ) + 1 = 2 := by norm_num
  have h3 : (2 : ℚ) + 1 = 3 := by norm_num
  simp only [List.range_succ, List.range_zero, List.nil_append, List.map_append,
    List.map_cons, List.map_nil, Nat.cast_zero, Nat.cast_one, Nat.cast_ofNat, h1, h2, h3,
    volume_out_1_of_3, volume_out_2_of_3, volume_out_3_of_3] at hc
  simp only [Nat.cast_ofNat]
  rw [hc]
  rfl

/-! ## C8, C9, C10: `Cancel`, `Stop`, `Reset` -/

/-- C8: `Cancel` with a non-null player leaves exactly the contexts that do not
match both the player and the direction, unchanged and in their order (so a
context of that player with the other direction stays), and changes neither
the call log, the query log, the paused flag nor the queue; `Cancel` with a
null player returns the state as it is. -/
theorem Cancel_removes_matching (s : State) (p : Player) (direction : Direction) :
    (Cancel s (some p) direction).contextList =
        s.contextList.filter
          (fun c => !decide (c.player = some p ∧ c.direction = direction))
      ∧ (∀ c ∈ s.contextList, c.direction ≠ direction →
          c ∈ (Cancel s (some p) direction).contextList)
      ∧ (Cancel s (some p) direction).calls = s.calls
      ∧ (Cancel s (some p) direction).queries = s.queries
      ∧ (Cancel s (some p) direction).paused = s.paused
      ∧ (Cancel s (some p) direction).messageQueue = s.messageQueue
      ∧ Cancel s none direction = s := by
  have hlist : (Cancel s (some p) direction).contextList =
      s.contextList.filter
        (fun c => !decide (c.player = some p ∧ c.direction = direction)) := by
    simp only [Cancel, remove_if_eq_filter]
    congr 1
    funext c
    simp [Bool.decide_and]
  refine ⟨hlist, ?_, rfl, rfl, rfl, rfl, rfl⟩
  intro c hc hd
  rw [hlist, List.mem_filter]
  refine ⟨hc, ?_⟩
  simp [hd]

theorem stopLoop_eq_flatMap (l : List FadeContext) :
    stopLoop l = l.flatMap (fun c =>
      (match c.player with
        | some p => [Call.Destroy p]
        | none => []) ++ [Call.Stop c.output]) := by
  induction l with
  | nil => rfl
  | cons c rest ih =>
    simp only [stopLoop, List.flatMap_cons, ih, stopCalls]

/-- C9: `Stop` makes, context by context in list order, a `Destroy` call on the
player when the player is present followed by one `Stop` call on the output,
whatever the direction and the progress; it makes no `SetVolume` call; it
leaves the list empty and keeps the query log, the paused flag and the queue. -/
theorem Stop_shuts_down_all (s : State) :
    (Stop s).calls =
        s.calls ++ s.contextList.flatMap (fun c =>
          (match c.player with
            | some p => [Call.Destroy p]
            | none => []) ++ [Call.Stop c.output])
      ∧ (∀ (o : Output) (v : ℚ), Call.SetVolume o v ∉ (Stop s).calls.drop s.calls.length)
      ∧ (Stop s).contextList = []
      ∧ (Stop s).queries = s.queries
      ∧ (Stop s).paused = s.paused
      ∧ (Stop s).messageQueue = s.messageQueue := by
  have hcalls : (Stop s).calls = s.calls ++ s.contextList.flatMap (fun c =>
      (match c.player with
        | some p => [Call.Destroy p]
        | none => []) ++ [Call.Stop c.output]) := by
    simp only [Stop, stopLoop_eq_flatMap]
  refine ⟨hcalls, ?_, rfl, rfl, rfl, rfl⟩
  intro o v hmem
  rw [hcalls, List.drop_left, List.mem_flatMap] at hmem
  obtain ⟨c, _, hc⟩ := hmem
  cases hp : c.player <;> simp [hp] at hc

/-- C10: `Reset` leaves the list empty and changes nothing else: the call log
(no `Destroy`, `Stop`, `SetVolume`, `Pause` or `Resume` is issued), the query
log, the paused flag and the queue are as before. -/
theorem Reset_clears_silently (s : State) :
    (Reset s).contextList = []
      ∧ (Reset s).calls = s.calls
      ∧ (Reset s).paused = s.paused
      ∧ (Reset s).queries = s.queries
      ∧ (Reset s).messageQueue = s.messageQueue :=
  ⟨rfl, rfl, rfl, rfl, rfl⟩

/-! ## The calls of a tick, context by context -/

theorem filter_isSetVolume_completionCalls (c : FadeContext) :
    (completionCalls c).filter Call.isSetVolume = [] := by
  unfold completionCalls
  split
  · cases c.player <;> simp [Call.isSetVolume]
  · rfl

theorem isSetVolume_volumeCall (g : ℚ) (b : Bool) (c : FadeContext) :
    Call.isSetVolume (volumeCall g b c) = true := by
  unfold volumeCall
  split <;> rfl

theorem tickLoop_mutedQueries (g : ℚ) (m : Nat → Bool) (asked : Nat) (l : List FadeContext) :
    (tickLoop g m asked l).mutedQueries =
      asked + (l.filter (fun c => decide (c.ticksCounted < c.ticksTotal))).length := by
  induction l generalizing asked with
  | nil => simp [tickLoop]
  | cons fade rest ih =>
    simp only [tickLoop, List.filter_cons]
    by_cases hmid : fade.ticksCounted < fade.ticksTotal
    · simp only [hmid, if_true, decide_True, List.length_cons]
      split
      · rw [ih]
        omega
      · rw [ih]
        omega
    · simp only [hmid, if_false, decide_False]
      split
      · rw [ih]
        simp
      · rw [ih]
        simp

/-- The `SetVolume` calls of the loop: one for each context below its total, in
order, the `k`-th of them computed with the answer to the `k`-th `IsMuted()`
query. -/
theorem tickLoop_setVolume (g : ℚ) (m : Nat → Bool) (asked : Nat) (l : List FadeContext) :
    (tickLoop g m asked l).calls.filter Call.isSetVolume =
      ((l.filter (fun c => decide (c.ticksCounted < c.ticksTotal))).enumFrom asked).map
        (fun kc => volumeCall g (m kc.1) (advance kc.2)) := by
  induction l generalizing asked with
  | nil => simp [tickLoop]
  | cons fade rest ih =>
    simp only [tickLoop, List.filter_cons]
    by_cases hmid : fade.ticksCounted < fade.ticksTotal
    · simp only [hmid, if_true, decide_True, List.enumFrom_cons, List.map_cons]
      split
      · simp only [List.filter_append, filter_isSetVolume_completionCalls, List.append_nil,
          List.filter_cons, isSetVolume_volumeCall, if_true, List.filter_nil,
          List.singleton_append, ih]
      · simp only [List.filter_append, List.filter_cons, isSetVolume_volumeCall, if_true,
          List.filter_nil, List.singleton_append, ih]
    · simp only [hmid, if_false, decide_False]
      split
      · simp only [List.nil_append, List.filter_append, filter_isSetVolume_completionCalls, ih,
          Bool.false_eq_true, if_false]
      · simp only [List.nil_append, ih, Bool.false_eq_true, if_false]

theorem ProcessMessage_queries (s : State) (t : Transport) :
    (ProcessMessage s MESSAGE_TICK t).queries =
      s.queries ++ Query.Volume :: List.replicate
        (s.contextList.filter (fun c => decide (c.ticksCounted < c.ticksTotal))).length
        Query.IsMuted := by
  have h := tickLoop_mutedQueries t.Volume t.IsMuted 0 s.contextList
  rw [Nat.zero_add] at h
  unfold ProcessMessage
  simp only [if_true]
  split <;> simp [ENQUEUE_TICK, h]

/-! ## C11: a tick under mute -/

/-- C11, as stated, fails: a fade-in of 0 ms is in the list with
`ticksCounted = ticksTotal = 0` when its first tick is delivered, the transport
answers muted, and no `SetVolume(0)` is made on its output (the tick makes no
call at all). -/
theorem muted_tick_skips_done_context :
    (run init zeroFade).contextList =
        [{ output := 10, player := some 1, direction := Direction.FadeIn,
           ticksCounted := 0, ticksTotal := 0 }]
      ∧ Call.SetVolume 10 0 ∉ (step (run init zeroFade) (Op.Tick 0 (muted 1))).calls
      ∧ (step (run init zeroFade) (Op.Tick 0 (muted 1))).calls = [] := by
  refine ⟨by decide, ?_, ?_⟩
  · have h : (step (run init zeroFade) (Op.Tick 0 (muted 1))).calls = [] := by decide
    rw [h]
    exact List.not_mem_nil _
  · decide

/-- C11, amended: on a tick during which every `IsMuted()` query is answered
with `true`, the `SetVolume` calls are, in list order, one `SetVolume(0)` on the
output of each context that is below its total when the tick starts, whatever
its direction; no other `SetVolume` call is made, so a context at or above its
total gets none. -/
theorem muted_tick_sets_zero (s : State) (t : Transport)
    (hm : ∀ k : Nat, t.IsMuted k = true) :
    ((ProcessMessage s MESSAGE_TICK t).calls.drop s.calls.length).filter Call.isSetVolume =
      (s.contextList.filter (fun c => decide (c.ticksCounted < c.ticksTotal))).map
        (fun c => Call.SetVolume c.output 0) := by
  rw [ProcessMessage_calls, List.drop_left, tickLoop_setVolume]
  have hfun : (fun kc : Nat × FadeContext =>
      volumeCall t.Volume (t.IsMuted kc.1) (advance kc.2)) =
        (fun c : FadeContext => Call.SetVolume c.output 0) ∘ Prod.snd := by
    funext kc
    simp only [Function.comp, hm, volumeCall, if_true]
    unfold advance
    split <;> rfl
  rw [hfun, ← List.map_map, List.enumFrom_map_snd]

/-- Witness of C11 amended: the three fades of `threeFades` are all below their
total, and a muted tick sets each output to 0. -/
theorem muted_tick_sets_zero_witness :
    (∀ k : Nat, (muted 1).IsMuted k = true)
      ∧ ((ProcessMessage threeFades MESSAGE_TICK (muted 1)).calls.drop
            threeFades.calls.length).filter Call.isSetVolume =
          [Call.SetVolume 10 0, Call.SetVolume 11 0, Call.SetVolume 12 0] := by
  refine ⟨fun _ => rfl, ?_⟩
  rw [muted_tick_sets_zero threeFades (muted 1) (fun _ => rfl)]
  decide

/-! ## C12: the volume ramp -/

/-- The `SetVolume` calls of one tick without mute. -/
theorem unmuted_tick_setVolume (s : State) (g : ℚ) :
    ((ProcessMessage s MESSAGE_TICK (unmuted g)).calls.drop s.calls.length).filter
        Call.isSetVolume =
      (s.contextList.filter (fun c => decide (c.ticksCounted < c.ticksTotal))).map
        (fun c => Call.SetVolume c.output
          (outputVolume g { c with ticksCounted := c.ticksCounted + 1 })) := by
  rw [ProcessMessage_calls, List.drop_left, tickLoop_setVolume]
  have hfun : (fun kc : Nat × FadeContext =>
      volumeCall (unmuted g).Volume ((unmuted g).IsMuted kc.1) (advance kc.2)) =
        (fun c : FadeContext => Call.SetVolume (advance c).output
          (outputVolume g (advance c))) ∘ Prod.snd := by
    funext kc
    simp [Function.comp, unmuted, volumeCall]
  rw [hfun, ← List.map_map, List.enumFrom_map_snd]
  apply List.map_congr_left
  intro c hc
  have hmid : c.ticksCounted < c.ticksTotal := by
    simpa using (List.mem_filter.mp hc).2
  rw [advance_of_mid c hmid]

theorem step_Tick_of_empty_queue (s : State) (i : Nat) (t : Transport)
    (hq : s.messageQueue = []) : step s (Op.Tick i t) = s := by
  simp [step, hq]

theorem run_replicate_succ (s : State) (op : Op) (j : Nat) :
    run s (List.replicate (j + 1) op) = step (run s (List.replicate j op)) op := by
  rw [List.replicate_succ', run_snoc]

/-- The contexts still in progress after `j` ticks delivered in a row. -/
theorem ticks_in_progress (s : State) (t : Transport) (hq : s.messageQueue ≠ []) (j : Nat) :
    (run s (List.replicate j (Op.Tick 0 t))).contextList.filter
        (fun c => decide (c.ticksCounted < c.ticksTotal)) =
        (s.contextList.filter (fun c => decide (c.ticksCounted + (j : Int) < c.ticksTotal))).map
          (fun c => { c with ticksCounted := c.ticksCounted + (j : Int) })
      ∧ ((run s (List.replicate j (Op.Tick 0 t))).messageQueue ≠ []
          ∨ (run s (List.replicate j (Op.Tick 0 t))).contextList = []) := by
  induction j with
  | zero =>
    refine ⟨?_, Or.inl hq⟩
    simp only [List.replicate_zero, run_nil, Nat.cast_zero, add_zero]
    exact (List.map_id' _).symm
  | succ j ih =>
    obtain ⟨h1, h2⟩ := ih
    rw [run_replicate_succ]
    by_cases hqj : (run s (List.replicate j (Op.Tick 0 t))).messageQueue = []
    · have hnil : (run s (List.replicate j (Op.Tick 0 t))).contextList = [] := by
        rcases h2 with h | h
        · exact absurd hqj h
        · exact h
      rw [step_Tick_of_empty_queue _ 0 t hqj]
      refine ⟨?_, Or.inr hnil⟩
      rw [hnil] at h1 ⊢
      have hnone : s.contextList.filter
          (fun c => decide (c.ticksCounted + (j : Int) < c.ticksTotal)) = [] := by
        simpa using h1.symm
      rw [List.filter_eq_nil_iff] at hnone
      have : s.contextList.filter
          (fun c => decide (c.ticksCounted + ((j + 1 : Nat) : Int) < c.ticksTotal)) = [] := by
        rw [List.filter_eq_nil_iff]
        intro c hc hlt
        have := hnone c hc
        simp only [decide_eq_true_eq] at this hlt
        push_cast at hlt
        omega
      rw [this]
      rfl
    · rw [step_Tick_zero _ t hqj]
      have hlist : (ProcessMessage
          { run s (List.replicate j (Op.Tick 0 t)) with
            messageQueue := (run s (List.replicate j (Op.Tick 0 t))).messageQueue.eraseIdx 0 }
          MESSAGE_TICK t).contextList =
          (s.contextList.filter
            (fun c => decide (c.ticksCounted + ((j + 1 : Nat) : Int) < c.ticksTotal))).map
            (fun c => { c with ticksCounted := c.ticksCounted + ((j + 1 : Nat) : Int) }) := by
        rw [ProcessMessage_survivors]
        have hsub : ∀ l : List FadeContext,
            l.filter (fun c => decide (c.ticksCounted + 1 < c.ticksTotal)) =
              (l.filter (fun c => decide (c.ticksCounted < c.ticksTotal))).filter
                (fun c => decide (c.ticksCounted + 1 < c.ticksTotal)) := by
          intro l
          rw [List.filter_filter]
          congr 1
          funext c
          by_cases h : c.ticksCounted + 1 < c.ticksTotal
          · have : c.ticksCounted < c.ticksTotal := by omega
            simp [h, this]
          · simp [h]
        show (List.filter (fun c => decide (c.ticksCounted + 1 < c.ticksTotal))
          (run s (List.replicate j (Op.Tick 0 t))).contextList).map _ = _
        rw [hsub, h1, List.filter_map, List.map_map, List.filter_filter]
        have hp : (fun a : FadeContext =>
            ((fun c : FadeContext => decide (c.ticksCounted + 1 < c.ticksTotal)) ∘
              fun c : FadeContext => ({ c with ticksCounted := c.ticksCounted + (j : Int) }
                : FadeContext)) a
            && decide (a.ticksCounted + (j : Int) < a.ticksTotal)) =
            fun c : FadeContext =>
              decide (c.ticksCounted + ((j + 1 : Nat) : Int) < c.ticksTotal) := by
          funext c
          simp only [Function.comp]
          push_cast
          rw [Bool.eq_iff_iff]
          simp only [Bool.and_eq_true, decide_eq_true_eq]
          constructor
          · intro h
            omega
          · intro h
            constructor <;> omega
        rw [hp]
        apply List.map_congr_left
        intro c _
        simp only [Function.comp]
        push_cast
        rw [add_assoc]
      refine ⟨?_, ?_⟩
      · rw [hlist, List.filter_map]
        congr 1
        rw [List.filter_filter]
        congr 1
        funext c
        simp only [Function.comp]
        by_cases h : c.ticksCounted + ((j + 1 : Nat) : Int) < c.ticksTotal
        · simp [h]
        · simp [h]
      · rw [ProcessMessage_messageQueue]
        by_cases hne : (ProcessMessage
            { run s (List.replicate j (Op.Tick 0 t)) with
              messageQueue :=
                (run s (List.replicate j (Op.Tick 0 t))).messageQueue.eraseIdx 0 }
            MESSAGE_TICK t).contextList = []
        · exact Or.inr hne
        · left
          have : (ProcessMessage
            { run s (List.replicate j (Op.Tick 0 t)) with
              messageQueue :=
                (run s (List.replicate j (Op.Tick 0 t))).messageQueue.eraseIdx 0 }
            MESSAGE_TICK t).contextList.length ≠ 0 := by
            intro h0
            exact hne (List.length_eq_zero.mp h0)
          rw [if_pos this]
          simp

/-- The `SetVolume` calls of tick number `j + 1` of a row of ticks without mute. -/
theorem ramp_calls (s : State) (g : ℚ) (hq : s.messageQueue ≠ []) (j : Nat) :
    ((step (run s (List.replicate j (Op.Tick 0 (unmuted g)))) (Op.Tick 0 (unmuted g))).calls.drop
        (run s (List.replicate j (Op.Tick 0 (unmuted g)))).calls.length).filter
        Call.isSetVolume =
      (s.contextList.filter (fun c => decide (c.ticksCounted + (j : Int) < c.ticksTotal))).map
        (fun c => Call.SetVolume c.output
          (outputVolume g { c with ticksCounted := c.ticksCounted + ((j + 1 : Nat) : Int) })) := by
  obtain ⟨h1, h2⟩ := ticks_in_progress s (unmuted g) hq j
  by_cases hqj : (run s (List.replicate j (Op.Tick 0 (unmuted g)))).messageQueue = []
  · have hnil : (run s (List.replicate j (Op.Tick 0 (unmuted g)))).contextList = [] := by
      rcases h2 with h | h
      · exact absurd hqj h
      · exact h
    rw [step_Tick_of_empty_queue _ 0 _ hqj, List.drop_length]
    rw [hnil] at h1
    have hnone : s.contextList.filter
        (fun c => decide (c.ticksCounted + (j : Int) < c.ticksTotal)) = [] := by
      simpa using h1.symm
    rw [hnone]
    rfl
  · rw [step_Tick_zero _ _ hqj]
    have h := unmuted_tick_setVolume
      { run s (List.replicate j (Op.Tick 0 (unmuted g))) with
        messageQueue :=
          (run s (List.replicate j (Op.Tick 0 (unmuted g)))).messageQueue.eraseIdx 0 } g
    simp only [] at h
    rw [h, h1, List.map_map]
    apply List.map_congr_left
    intro c _
    simp only [Function.comp]
    push_cast
    rw [add_assoc]

/-- The volume written for one context of `ticksTotal = 3` by the tick that
brings it to 1, with global volume 1. -/
theorem outputVolume_1_of_3 (o : Output) (p : Option Player) :
    outputVolume 1 { output := o, player := p, direction := Direction.FadeIn,
                     ticksCounted := 1, ticksTotal := 3 } = 11184811 / 33554432 := by
  rw [outputVolume_FadeIn]
  simp only [Int.cast_one, Int.cast_ofNat, one_mul]
  rw [float_one, float_three, float_third, double_11184811_25]

theorem outputVolume_2_of_3 (o : Output) (p : Option Player) :
    outputVolume 1 { output := o, player := p, direction := Direction.FadeIn,
                     ticksCounted := 2, ticksTotal := 3 } = 11184811 / 16777216 := by
  rw [outputVolume_FadeIn]
  simp only [Int.cast_ofNat, one_mul]
  rw [float_two, float_three, float_two_thirds, double_11184811_24]

theorem outputVolume_16777216 (o : Output) (p : Option Player) :
    outputVolume 1 { output := o, player := p, direction := Direction.FadeIn,
                     ticksCounted := 16777216, ticksTotal := 16777218 }
      = 8388607 / 8388608 := by
  rw [outputVolume_FadeIn]
  simp only [Int.cast_ofNat, one_mul]
  rw [float_16777216, float_16777218, float_16777216_of_16777218, double_8388607]

theorem outputVolume_16777217 (o : Output) (p : Option Player) :
    outputVolume 1 { output := o, player := p, direction := Direction.FadeIn,
                     ticksCounted := 16777217, ticksTotal := 16777218 }
      = 8388607 / 8388608 := by
  rw [outputVolume_FadeIn]
  simp only [Int.cast_ofNat, one_mul]
  rw [float_16777217, float_16777218, float_16777216_of_16777218, double_8388607]

theorem longFadeIn_state :
    (run init longFadeIn).contextList =
        [{ output := 11, player := some 2, direction := Direction.FadeIn,
           ticksCounted := 0, ticksTotal := 16777218 }]
      ∧ (run init longFadeIn).messageQueue ≠ [] := by
  constructor <;> decide

/-- C12, as stated, fails. The first tick of a fade-in of 3 ticks with global
volume 1 writes 11184811/33554432 (0.3333333432674408), not 1/3. In a fade-in of
16777218 ticks, tick 16777216 and tick 16777217 both write 8388607/8388608
(0.9999998807907104): the volumes do not strictly increase. -/
theorem ramp_not_exact_not_strict :
    (((step (run (run init fadeInOnce) (List.replicate 0 (Op.Tick 0 (unmuted 1))))
            (Op.Tick 0 (unmuted 1))).calls.drop
          (run (run init fadeInOnce) (List.replicate 0 (Op.Tick 0 (unmuted 1)))).calls.length).filter
          Call.isSetVolume = [Call.SetVolume 10 (11184811 / 33554432)]
        ∧ (11184811 / 33554432 : ℚ) ≠ 1 * ((1 : Nat) : ℚ) / ((3 : Nat) : ℚ))
      ∧ ((step (run (run init longFadeIn) (List.replicate 16777215 (Op.Tick 0 (unmuted 1))))
            (Op.Tick 0 (unmuted 1))).calls.drop
          (run (run init longFadeIn)
            (List.replicate 16777215 (Op.Tick 0 (unmuted 1)))).calls.length).filter
          Call.isSetVolume = [Call.SetVolume 11 (8388607 / 8388608)]
      ∧ ((step (run (run init longFadeIn) (List.replicate 16777216 (Op.Tick 0 (unmuted 1))))
            (Op.Tick 0 (unmuted 1))).calls.drop
          (run (run init longFadeIn)
            (List.replicate 16777216 (Op.Tick 0 (unmuted 1)))).calls.length).filter
          Call.isSetVolume = [Call.SetVolume 11 (8388607 / 8388608)] := by
  have hshort : (run init fadeInOnce).contextList =
      [{ output := 10, player := some 1, direction := Direction.FadeIn,
         ticksCounted := 0, ticksTotal := 3 }] := by decide
  have hshortq : (run init fadeInOnce).messageQueue ≠ [] := by decide
  obtain ⟨hlong, hlongq⟩ := longFadeIn_state
  refine ⟨⟨?_, by norm_num⟩, ?_, ?_⟩
  · rw [ramp_calls (run init fadeInOnce) 1 hshortq 0, hshort]
    simp only [Nat.cast_zero, add_zero, Nat.zero_add, Nat.cast_one, zero_add]
    have hf : (decide ((0 : Int) < 3)) = true := by decide
    simp only [List.filter_cons, hf, if_true, List.filter_nil, List.map_cons, List.map_nil,
      zero_add]
    rw [outputVolume_1_of_3]
  · rw [ramp_calls (run init longFadeIn) 1 hlongq 16777215, hlong]
    have hf : (decide ((0 : Int) + ((16777215 : Nat) : Int) < 16777218)) = true := by decide
    simp only [List.filter_cons, hf, if_true, List.filter_nil, List.map_cons, List.map_nil]
    have hc : (0 : Int) + ((16777215 + 1 : Nat) : Int) = 16777216 := by norm_num
    rw [hc, outputVolume_16777216]
  · rw [ramp_calls (run init longFadeIn) 1 hlongq 16777216, hlong]
    have hf : (decide ((0 : Int) + ((16777216 : Nat) : Int) < 16777218)) = true := by decide
    simp only [List.filter_cons, hf, if_true, List.filter_nil, List.map_cons, List.map_nil]
    have hc : (0 : Int) + ((16777216 + 1 : Nat) : Int) = 16777217 := by norm_num
    rw [hc, outputVolume_16777217]

/-- C12, amended: with no mute and a constant global volume `g > 0` that is a
`double`, tick number `j + 1` of a row of ticks writes, for each context `c`
that is still below its total after `j` ticks, the volume `outputVolume` gives
for `ticksCounted + j + 1`; for a context that starts at 0 with
`ticksTotal = T ≥ 1` this is, on tick `k` (`1 ≤ k ≤ T`), the `double` product
`g * q` for a fade-in and `g * (1 - q)` for a fade-out, `q` being the `float`
quotient of `(float) k` and `(float) T` and `1 - q` taken in `double`; so the
volumes of a fade-in never decrease and end at exactly `g`, those of a
fade-out never increase and end at exactly 0, and all of them lie in `[0, g]`. -/
theorem volume_ramp (g : ℚ) (hg : 0 < g) (hgd : double g = g) (T : Nat) (hT : 1 ≤ T) :
    (∀ (s : State) (j : Nat), s.messageQueue ≠ [] →
        ((step (run s (List.replicate j (Op.Tick 0 (unmuted g))))
              (Op.Tick 0 (unmuted g))).calls.drop
            (run s (List.replicate j (Op.Tick 0 (unmuted g)))).calls.length).filter
            Call.isSetVolume =
          (s.contextList.filter
              (fun c => decide (c.ticksCounted + (j : Int) < c.ticksTotal))).map
            (fun c => Call.SetVolume c.output
              (outputVolume g
                { c with ticksCounted := c.ticksCounted + ((j + 1 : Nat) : Int) })))
      ∧ (∀ (o : Output) (p : Option Player) (k : Nat), 1 ≤ k → k ≤ T →
          outputVolume g { output := o, player := p, direction := Direction.FadeIn,
                           ticksCounted := (k : Int), ticksTotal := (T : Int) }
              = double (g * float (float (k : ℚ) / float (T : ℚ)))
            ∧ outputVolume g { output := o, player := p, direction := Direction.FadeOut,
                               ticksCounted := (k : Int), ticksTotal := (T : Int) }
              = double (g * double (1 - float (float (k : ℚ) / float (T : ℚ))))
            ∧ 0 ≤ double (g * float (float (k : ℚ) / float (T : ℚ)))
            ∧ double (g * float (float (k : ℚ) / float (T : ℚ))) ≤ g
            ∧ 0 ≤ double (g * double (1 - float (float (k : ℚ) / float (T : ℚ))))
            ∧ double (g * double (1 - float (float (k : ℚ) / float (T : ℚ)))) ≤ g)
      ∧ (∀ (o : Output) (p : Option Player) (k : Nat), 1 ≤ k → k < T →
          outputVolume g { output := o, player := p, direction := Direction.FadeIn,
                           ticksCounted := (k : Int), ticksTotal := (T : Int) }
              ≤ outputVolume g { output := o, player := p, direction := Direction.FadeIn,
                                 ticksCounted := ((k + 1 : Nat) : Int),
                                 ticksTotal := (T : Int) }
            ∧ outputVolume g { output := o, player := p, direction := Direction.FadeOut,
                               ticksCounted := ((k + 1 : Nat) : Int),
                               ticksTotal := (T : Int) }
              ≤ outputVolume g { output := o, player := p, direction := Direction.FadeOut,
                                 ticksCounted := (k : Int), ticksTotal := (T : Int) })
      ∧ (∀ (o : Output) (p : Option Player),
          outputVolume g { output := o, player := p, direction := Direction.FadeIn,
                           ticksCounted := (T : Int), ticksTotal := (T : Int) } = g
            ∧ outputVolume g { output := o, player := p, direction := Direction.FadeOut,
                               ticksCounted := (T : Int), ticksTotal := (T : Int) } = 0) := by
  have hg0 : 0 ≤ g := le_of_lt hg
  -- the fade-out factor `1 - q` in `double` lies in `[0, 1]`
  have hout : ∀ k : Nat, k ≤ T →
      0 ≤ double (1 - float (float (k : ℚ) / float (T : ℚ)))
        ∧ double (1 - float (float (k : ℚ) / float (T : ℚ))) ≤ 1 := by
    intro k hk
    have h1 := percent_le_one k T hk hT
    have h0 := percent_nonneg k T
    constructor
    · exact double_nonneg _ (by linarith)
    · have := double_mono (1 - float (float (k : ℚ) / float (T : ℚ))) 1 (by linarith)
        (by linarith)
      rwa [double_one] at this
  have hle : ∀ x : ℚ, 0 ≤ x → x ≤ 1 → 0 ≤ double (g * x) ∧ double (g * x) ≤ g := by
    intro x hx0 hx1
    constructor
    · exact double_nonneg _ (mul_nonneg hg0 hx0)
    · have h := double_mono (g * x) g (mul_nonneg hg0 hx0)
        (by calc g * x ≤ g * 1 := mul_le_mul_of_nonneg_left hx1 hg0
              _ = g := mul_one g)
      rwa [hgd] at h
  refine ⟨fun s j hq => ramp_calls s g hq j, ?_, ?_, ?_⟩
  · intro o p k _ hkT
    have hin := hle _ (percent_nonneg k T) (percent_le_one k T hkT hT)
    have hou := hle _ (hout k hkT).1 (hout k hkT).2
    refine ⟨?_, ?_, hin.1, hin.2, hou.1, hou.2⟩
    · rw [outputVolume_FadeIn, Int.cast_natCast, Int.cast_natCast]
    · rw [outputVolume_FadeOut, Int.cast_natCast, Int.cast_natCast]
  · intro o p k _ hk
    have hm := percent_mono k (k + 1) T (Nat.le_succ k)
    have h0 := percent_nonneg k T
    have h1 := percent_le_one (k + 1) T hk hT
    constructor
    · rw [outputVolume_FadeIn, outputVolume_FadeIn]
      simp only [Int.cast_natCast]
      exact double_mono _ _ (mul_nonneg hg0 h0) (mul_le_mul_of_nonneg_left hm hg0)
    · rw [outputVolume_FadeOut, outputVolume_FadeOut]
      simp only [Int.cast_natCast]
      have hsub : double (1 - float (float ((k + 1 : Nat) : ℚ) / float (T : ℚ)))
          ≤ double (1 - float (float (k : ℚ) / float (T : ℚ))) :=
        double_mono _ _ (by linarith) (by linarith)
      exact double_mono _ _ (mul_nonneg hg0 (hout (k + 1) hk).1)
        (mul_le_mul_of_nonneg_left hsub hg0)
  · intro o p
    constructor
    · rw [outputVolume_FadeIn, Int.cast_natCast, percent_full T hT, mul_one, hgd]
    · rw [outputVolume_FadeOut, Int.cast_natCast, percent_full T hT, sub_self, double_zero,
        mul_zero, double_zero]

/-- Witness of C12 amended: volume 1 and a fade-in of 3 ticks; the second tick
writes 11184811/16777216 (0.6666666865348816) on the output. -/
theorem volume_ramp_witness :
    (0 : ℚ) < 1 ∧ double 1 = 1 ∧ 1 ≤ 3 ∧ (run init fadeInOnce).messageQueue ≠ []
      ∧ ((step (run (run init fadeInOnce) (List.replicate 1 (Op.Tick 0 (unmuted 1))))
              (Op.Tick 0 (unmuted 1))).calls.drop
            (run (run init fadeInOnce)
              (List.replicate 1 (Op.Tick 0 (unmuted 1)))).calls.length).filter
            Call.isSetVolume = [Call.SetVolume 10 (11184811 / 16777216)] := by
  have h := volume_ramp 1 (by norm_num) double_one 3 (by decide)
  refine ⟨by norm_num, double_one, by decide, by decide, ?_⟩
  rw [h.1 (run init fadeInOnce) 1 (by decide)]
  have hl : (run init fadeInOnce).contextList =
      [{ output := 10, player := some 1, direction := Direction.FadeIn,
         ticksCounted := 0, ticksTotal := 3 }] := by decide
  rw [hl]
  have hf : (decide ((0 : Int) + ((1 : Nat) : Int) < 3)) = true := by decide
  simp only [List.filter_cons, hf, if_true, List.filter_nil, List.map_cons, List.map_nil]
  have hc : (0 : Int) + ((1 + 1 : Nat) : Int) = 2 := by norm_num
  rw [hc, outputVolume_2_of_3]

/-! ## C13: contexts that are done when the tick starts -/

/-- The loop of the tick over a list in two parts. -/
theorem tickLoop_append (g : ℚ) (m : Nat → Bool) (asked : Nat) (l1 l2 : List FadeContext) :
    tickLoop g m asked (l1 ++ l2) =
      { contextList := (tickLoop g m asked l1).contextList
          ++ (tickLoop g m (tickLoop g m asked l1).mutedQueries l2).contextList
        calls := (tickLoop g m asked l1).calls
          ++ (tickLoop g m (tickLoop g m asked l1).mutedQueries l2).calls
        mutedQueries := (tickLoop g m (tickLoop g m asked l1).mutedQueries l2).mutedQueries } := by
  induction l1 generalizing asked with
  | nil => simp [tickLoop]
  | cons fade rest ih =>
    simp only [List.cons_append, tickLoop, List.append_eq]
    rw [ih]
    split <;> simp

/-- The loop of the tick at a context that is at or above its total: only the
completion calls, no `IsMuted()` query, and the context is not kept. -/
theorem tickLoop_cons_done (g : ℚ) (m : Nat → Bool) (asked : Nat) (c : FadeContext)
    (rest : List FadeContext) (hc : c.ticksCounted ≥ c.ticksTotal) :
    tickLoop g m asked (c :: rest) =
      { contextList := (tickLoop g m asked rest).contextList
        calls := completionCalls c ++ (tickLoop g m asked rest).calls
        mutedQueries := (tickLoop g m asked rest).mutedQueries } := by
  have hnot : ¬ c.ticksCounted < c.ticksTotal := by omega
  simp only [tickLoop, advance_of_not_mid c hnot, hnot, if_false, hc, if_true, List.nil_append]

theorem midNonneg_step (s : State) (op : Op)
    (hs : ∀ c ∈ s.contextList, c.ticksCounted < c.ticksTotal → 0 ≤ c.ticksCounted) :
    ∀ c ∈ (step s op).contextList, c.ticksCounted < c.ticksTotal → 0 ≤ c.ticksCounted := by
  intro c hc
  cases op with
  | Fade player output direction durationMs =>
    rcases mem_Fade_contextList s player output direction durationMs c hc with
      h | ⟨o, ho, rfl⟩ | ⟨_, rfl⟩
    · exact hs c h
    · intro hlt
      exact absurd hlt (lt_irrefl _)
    · intro _
      exact le_refl _
  | Stop => simp [step, Stop] at hc
  | OnPlayerDestroyed player =>
    cases player with
    | none => exact hs c hc
    | some p =>
      simp only [step, OnPlayerDestroyed, List.mem_map] at hc
      obtain ⟨o, ho, rfl⟩ := hc
      split
      · exact hs o ho
      · exact hs o ho
  | Cancel player direction =>
    cases player with
    | none => exact hs c hc
    | some p =>
      simp only [step, Cancel, remove_if_eq_filter] at hc
      exact hs c (List.mem_of_mem_filter hc)
  | Pause => exact hs c hc
  | Resume => exact hs c hc
  | Reset => simp [step, Reset] at hc
  | Tick i t =>
    rcases step_Tick_contextList s i t with h | h
    · rw [h] at hc
      exact hs c hc
    · rw [h] at hc
      simp only [List.mem_map, List.mem_filter, decide_eq_true_eq] at hc
      obtain ⟨o, ⟨ho, hlt⟩, rfl⟩ := hc
      intro _
      have := hs o ho (by omega)
      show 0 ≤ o.ticksCounted + 1
      omega

/-- C13: a context that is at or above its total when a tick starts (wherever
it stands in the list) is not kept by that tick, gets no `SetVolume` call and
causes no `IsMuted()` query, whatever the transport answers: the tick does for
the contexts before it and after it what it would do without it, and in
between makes only the completion calls, `Destroy` (player present) then `Stop`
for a fade-out and nothing for a fade-in. A `Fade` with a duration from 0 to 99
creates such a context, with `ticksCounted = ticksTotal = 0`. In every state
reached from the fresh crossfader a context below its total has
`ticksTotal > 0`, so the quotient of line 226 never has a zero divisor. -/
theorem done_context_tick :
    (∀ (s : State) (t : Transport) (pre post : List FadeContext) (c : FadeContext),
        s.contextList = pre ++ c :: post → c.ticksCounted ≥ c.ticksTotal →
        (ProcessMessage s MESSAGE_TICK t).contextList =
            (tickLoop t.Volume t.IsMuted 0 pre).contextList
              ++ (tickLoop t.Volume t.IsMuted
                    (tickLoop t.Volume t.IsMuted 0 pre).mutedQueries post).contextList
          ∧ (ProcessMessage s MESSAGE_TICK t).calls =
              s.calls ++ (tickLoop t.Volume t.IsMuted 0 pre).calls
                ++ (if c.direction = Direction.FadeOut then
                      (match c.player with
                        | some p => [Call.Destroy p]
                        | none => []) ++ [Call.Stop c.output]
                    else [])
                ++ (tickLoop t.Volume t.IsMuted
                      (tickLoop t.Volume t.IsMuted 0 pre).mutedQueries post).calls)
      ∧ (∀ (s : State) (player : Option Player) (output : Output) (direction : Direction)
          (durationMs : Int), 0 ≤ durationMs → durationMs < 100 →
          Contains s player = false →
          (Fade s player output direction durationMs).contextList.getLast? =
            some { output := output, player := player, direction := direction,
                   ticksCounted := 0, ticksTotal := 0 })
      ∧ (∀ (ops : List Op), ∀ c ∈ (run init ops).contextList,
          c.ticksCounted < c.ticksTotal → 0 < c.ticksTotal) := by
  refine ⟨?_, ?_, ?_⟩
  · intro s t pre post c hs hc
    constructor
    · rw [ProcessMessage_contextList, hs, tickLoop_append, tickLoop_cons_done _ _ _ _ _ hc]
    · rw [ProcessMessage_calls, hs, tickLoop_append, tickLoop_cons_done _ _ _ _ _ hc]
      simp only [completionCalls, List.append_assoc]
  · intro s player output direction durationMs h0 h100 hc
    rw [Fade_eq_of_not_Contains s player output direction durationMs hc,
      Int.tdiv_eq_zero_of_lt h0 h100]
    simp
  · intro ops c hc hlt
    have h := run_invariant
      (fun s => ∀ c ∈ s.contextList, c.ticksCounted < c.ticksTotal → 0 ≤ c.ticksCounted)
      (fun _ => True) (fun s op _ hs => midNonneg_step s op hs) ops init
      (fun _ _ => trivial) (by simp [init])
    have := h c hc hlt
    omega

/-- Witness of C13: a fade-out of 50 ms has `ticksTotal = 0`; its first tick
makes `Destroy` and `Stop` only, and leaves the list empty. -/
theorem done_context_tick_witness :
    (run init shortFadeOut).contextList =
        [] ++ { output := 10, player := some 1, direction := Direction.FadeOut,
                ticksCounted := 0, ticksTotal := 0 } :: []
      ∧ (0 : Int) ≥ 0
      ∧ (ProcessMessage (run init shortFadeOut) MESSAGE_TICK (unmuted 1)).contextList = []
      ∧ (ProcessMessage (run init shortFadeOut) MESSAGE_TICK (unmuted 1)).calls =
          [Call.Destroy 1, Call.Stop 10] := by
  have h := done_context_tick.1 (run init shortFadeOut) (unmuted 1) [] []
    { output := 10, player := some 1, direction := Direction.FadeOut,
      ticksCounted := 0, ticksTotal := 0 } (by decide) (by decide)
  refine ⟨by decide, by decide, ?_, ?_⟩
  · rw [h.1]
    rfl
  · rw [h.2]
    rfl

/-! ## C14: `Pause` and `Resume` -/

/-- C14: `Pause` and `Resume` leave the context list as it is; `Pause` sets the
paused flag, calls `Pause` once on the output of each context, in order, and
leaves no tick pending; `Resume` clears the flag, calls `Resume` once on the
output of each context and posts one tick with delay 0; neither queries the
transport. The tick delivered after `Pause` then `Resume` does to the contexts
what a tick would have done before the `Pause`: same list afterwards, same
calls. -/
theorem Pause_Resume_keep_contexts (s : State) :
    ((Pause s).contextList = s.contextList
        ∧ (Pause s).paused = true
        ∧ (Pause s).calls = s.calls ++ s.contextList.map (fun c => Call.Pause c.output)
        ∧ (Pause s).messageQueue = []
        ∧ (Pause s).queries = s.queries)
      ∧ ((Resume s).contextList = s.contextList
        ∧ (Resume s).paused = false
        ∧ (Resume s).calls = s.calls ++ s.contextList.map (fun c => Call.Resume c.output)
        ∧ (Resume s).messageQueue = s.messageQueue ++ [0]
        ∧ (Resume s).queries = s.queries)
      ∧ (∀ t : Transport,
          (step (Resume (Pause s)) (Op.Tick 0 t)).contextList =
              (ProcessMessage s MESSAGE_TICK t).contextList
            ∧ (step (Resume (Pause s)) (Op.Tick 0 t)).contextList =
              (s.contextList.map advance).filter
                (fun c => decide (c.ticksCounted < c.ticksTotal))
            ∧ (step (Resume (Pause s)) (Op.Tick 0 t)).calls.drop
                (Resume (Pause s)).calls.length =
              (ProcessMessage s MESSAGE_TICK t).calls.drop s.calls.length) := by
  refine ⟨⟨rfl, rfl, rfl, rfl, rfl⟩, ⟨rfl, rfl, rfl, rfl, rfl⟩, ?_⟩
  intro t
  have hq : (Resume (Pause s)).messageQueue ≠ [] := by
    simp [Resume, Pause, Post, Remove]
  rw [step_Tick_zero _ t hq]
  refine ⟨?_, ?_, ?_⟩
  · rw [ProcessMessage_contextList, ProcessMessage_contextList]
    rfl
  · rw [ProcessMessage_contextList, tickLoop_contextList]
    rfl
  · rw [ProcessMessage_calls, ProcessMessage_calls, List.drop_left]
    have : ({ Resume (Pause s) with
        messageQueue := (Resume (Pause s)).messageQueue.eraseIdx 0 } : State).calls
          = (Resume (Pause s)).calls := rfl
    rw [this, List.drop_left]
    rfl

/-! ## C15: ticks while paused -/

/-- C15 at its failing input: after `Pause` and a `Fade` on the empty list the
crossfader is paused and a tick is pending; its delivery, still paused, makes a
`SetVolume` call and raises `ticksCounted` from 0 to 1. -/
theorem tick_pending_while_paused :
    (run init fadeWhilePaused).paused = true
      ∧ (run init fadeWhilePaused).messageQueue = [100]
      ∧ (run init fadeWhilePaused).contextList =
          [{ output := 10, player := some 1, direction := Direction.FadeOut,
             ticksCounted := 0, ticksTotal := 3 }]
      ∧ (step (run init fadeWhilePaused) (Op.Tick 0 (unmuted 1))).paused = true
      ∧ (step (run init fadeWhilePaused) (Op.Tick 0 (unmuted 1))).contextList =
          [{ output := 10, player := some 1, direction := Direction.FadeOut,
             ticksCounted := 1, ticksTotal := 3 }]
      ∧ (step (run init fadeWhilePaused) (Op.Tick 0 (unmuted 1))).calls =
          [Call.SetVolume 10 (22369621 / 33554432)] := by
  refine ⟨by decide, by decide, by decide, by decide, by decide, ?_⟩
  have hq : (run init fadeWhilePaused).messageQueue ≠ [] := by decide
  have hl : (run init fadeWhilePaused).contextList =
      [{ output := 10, player := some 1, direction := Direction.FadeOut,
         ticksCounted := ((0 : Nat) : Int), ticksTotal := ((3 : Nat) : Int) }] := by decide
  have hc : (run init fadeWhilePaused).calls = [] := by decide
  have h := (tick_single_fade_out (run init fadeWhilePaused) 1 1 10 0 3 (by decide) hq hl).1
  rw [h, hc]
  simp only [Nat.cast_zero, zero_add, Nat.cast_ofNat]
  rw [volume_out_1_of_3]
  rfl

/-! ## C18: what a tick reads from the transport -/

/-- C18, as stated, fails: on `threeFades` one tick reads the mute flag three
times, once per context, and with a transport whose answer changes after the
first query the first context is set to 0 while the other two get their ramp
volume. -/
theorem mute_read_per_context :
    (ProcessMessage threeFades MESSAGE_TICK flicker).queries =
        [Query.Volume, Query.IsMuted, Query.IsMuted, Query.IsMuted]
      ∧ (ProcessMessage threeFades MESSAGE_TICK flicker).calls =
          [Call.SetVolume 10 0, Call.SetVolume 11 (11184811 / 33554432),
            Call.SetVolume 12 (1 / 4)] := by
  constructor
  · decide
  · have hd : ¬ Direction.FadeIn = Direction.FadeOut := by decide
    rw [ProcessMessage_calls]
    norm_num [threeFades, tickLoop, advance, volumeCall, outputVolume, flicker,
      completionCalls, hd]
    constructor
    · rw [float_one, float_three, float_third, double_11184811_25]
    · rw [float_three, float_four, float_three_quarters]
      norm_num
      rw [double_quarter, double_quarter]

/-- C18, amended: a tick reads the global volume once, before the loop, and
the mute flag once for each context that is below its total (not at all when
there is none); its `SetVolume` calls are, for the `k`-th such context in list
order, 0 when the `k`-th mute answer is `true` and otherwise the ramp volume
computed from that one global volume. -/
theorem tick_transport_reads (s : State) (t : Transport) :
    (ProcessMessage s MESSAGE_TICK t).queries =
        s.queries ++ Query.Volume :: List.replicate
          (s.contextList.filter (fun c => decide (c.ticksCounted < c.ticksTotal))).length
          Query.IsMuted
      ∧ ((ProcessMessage s MESSAGE_TICK t).calls.drop s.calls.length).filter
            Call.isSetVolume =
          ((s.contextList.filter
              (fun c => decide (c.ticksCounted < c.ticksTotal))).enumFrom 0).map
            (fun kc =>
              if t.IsMuted kc.1 = true then Call.SetVolume kc.2.output 0
              else Call.SetVolume kc.2.output
                (outputVolume t.Volume
                  { kc.2 with ticksCounted := kc.2.ticksCounted + 1 })) := by
  constructor
  · exact ProcessMessage_queries s t
  · rw [ProcessMessage_calls, List.drop_left, tickLoop_setVolume]
    apply List.map_congr_left
    intro kc hkc
    have hmem : kc.2 ∈ s.contextList.filter
        (fun c => decide (c.ticksCounted < c.ticksTotal)) := by
      have := List.mem_map_of_mem Prod.snd hkc
      rwa [List.enumFrom_map_snd] at this
    have hmid : kc.2.ticksCounted < kc.2.ticksTotal := by
      simpa using (List.mem_filter.mp hmem).2
    rw [advance_of_mid kc.2 hmid]
    rfl

/-! ## C19, C20: the pending ticks -/

theorem stall_step (s : State) (op : Op)
    (hs : s.paused = false → s.contextList ≠ [] → s.messageQueue ≠ []) :
    (step s op).paused = false → (step s op).contextList ≠ [] →
      (step s op).messageQueue ≠ [] := by
  cases op with
  | Fade player output direction durationMs =>
    simp only [step]
    cases h : Contains s player
    · rw [Fade_eq_of_not_Contains s player output direction durationMs h]
      intro hp _
      by_cases h0 : s.contextList.length = 0
      · simp [h0]
      · simp only [h0, if_false]
        exact hs hp (fun hnil => h0 (by rw [hnil]; rfl))
    · rw [Fade_of_Contains s player output direction durationMs h]
      exact hs
  | Stop =>
    intro _ hne
    exact absurd rfl hne
  | OnPlayerDestroyed player =>
    cases player with
    | none => exact hs
    | some p =>
      intro hp hne
      refine hs hp ?_
      intro hnil
      apply hne
      simp [step, OnPlayerDestroyed, hnil]
  | Cancel player direction =>
    cases player with
    | none => exact hs
    | some p =>
      intro hp hne
      refine hs hp ?_
      intro hnil
      apply hne
      simp [step, Cancel, remove_if, hnil]
  | Pause =>
    intro hp
    simp [step, Pause] at hp
  | Resume =>
    intro _ _
    simp [step, Resume, Post]
  | Reset =>
    intro _ hne
    exact absurd rfl hne
  | Tick i t =>
    simp only [step]
    split
    · intro _ hne
      rw [ProcessMessage_messageQueue]
      have : (ProcessMessage { s with messageQueue := s.messageQueue.eraseIdx i }
          MESSAGE_TICK t).contextList.length ≠ 0 := by
        intro h0
        exact hne (List.length_eq_zero.mp h0)
      rw [if_pos this]
      simp
    · exact hs

/-- C19: in every state reached from the fresh crossfader by any sequence of
operations and tick deliveries, if the crossfader is not paused and its list is
not empty then a tick is pending. -/
theorem fades_never_stall (ops : List Op) (hp : (run init ops).paused = false)
    (hne : (run init ops).contextList ≠ []) :
    (run init ops).messageQueue ≠ [] := by
  have h := run_invariant
    (fun s => s.paused = false → s.contextList ≠ [] → s.messageQueue ≠ [])
    (fun _ => True) (fun s op _ hs => stall_step s op hs) ops init
    (fun _ _ => trivial) (fun _ hne => absurd rfl hne)
  exact h hp hne

/-- Witness of C19: after a fade-in is started on the fresh crossfader, one
tick is pending. -/
theorem fades_never_stall_witness :
    (run init fadeInOnce).paused = false ∧ (run init fadeInOnce).contextList ≠ []
      ∧ (run init fadeInOnce).messageQueue ≠ [] :=
  ⟨by decide, by decide, fades_never_stall fadeInOnce (by decide) (by decide)⟩

/-- C20 at its failing input: a fade, a `Reset` while the first tick is still
pending, and a second fade leave two ticks pending on a crossfader that is not
paused; when both are delivered the fade has advanced by two steps, and two
ticks are pending again. -/
theorem two_ticks_pending :
    (run init fadeResetFade).messageQueue = [100, 100]
      ∧ (run init fadeResetFade).paused = false
      ∧ (run init fadeResetFade).contextList =
          [{ output := 11, player := some 2, direction := Direction.FadeIn,
             ticksCounted := 0, ticksTotal := 3 }]
      ∧ (run (run init fadeResetFade)
          [Op.Tick 0 (unmuted 1), Op.Tick 0 (unmuted 1)]).contextList =
          [{ output := 11, player := some 2, direction := Direction.FadeIn,
             ticksCounted := 2, ticksTotal := 3 }]
      ∧ (run (run init fadeResetFade)
          [Op.Tick 0 (unmuted 1), Op.Tick 0 (unmuted 1)]).messageQueue = [100, 100] := by
  refine ⟨by decide, by decide, by decide, by decide, by decide⟩

/-! ## C16: `OnPlayerDestroyed` -/

theorem OnPlayerDestroyed_contextList (s : State) (p : Player) :
    (OnPlayerDestroyed s (some p)).contextList = s.contextList.map (clearPlayer p) := rfl

theorem clearPlayer_fields (p : Player) (c : FadeContext) :
    (clearPlayer p c).ticksCounted = c.ticksCounted
      ∧ (clearPlayer p c).ticksTotal = c.ticksTotal
      ∧ (clearPlayer p c).output = c.output
      ∧ (clearPlayer p c).direction = c.direction := by
  unfold clearPlayer
  split <;> exact ⟨rfl, rfl, rfl, rfl⟩

theorem clearPlayer_player (p : Player) (c : FadeContext) :
    (clearPlayer p c).player ≠ some p := by
  unfold clearPlayer
  split
  · simp
  · assumption

theorem advance_clearPlayer (p : Player) (c : FadeContext) :
    advance (clearPlayer p c) = clearPlayer p (advance c) := by
  unfold advance clearPlayer
  split <;> split <;> simp_all

theorem volumeCall_clearPlayer (g : ℚ) (b : Bool) (p : Player) (c : FadeContext) :
    volumeCall g b (clearPlayer p c) = volumeCall g b c := by
  unfold clearPlayer
  split
  · rfl
  · rfl

theorem completionCalls_clearPlayer (p : Player) (c : FadeContext) :
    completionCalls (clearPlayer p c) =
      (completionCalls c).filter (fun call => !decide (call = Call.Destroy p)) := by
  unfold clearPlayer completionCalls
  by_cases hd : c.direction = Direction.FadeOut
  · by_cases hp : c.player = some p
    · simp [hd, hp]
    · cases hq : c.player with
      | none => simp [hd, hq]
      | some q =>
        have hqp : q ≠ p := by
          intro h
          apply hp
          rw [hq, h]
        simp [hd, hq, hqp]
  · by_cases hp : c.player = some p
    · simp [hd, hp]
    · simp [hd, hp]

theorem filter_not_Destroy_volumeCall (g : ℚ) (b : Bool) (p : Player) (c : FadeContext) :
    (fun call => !decide (call = Call.Destroy p)) (volumeCall g b c) = true := by
  unfold volumeCall
  split <;> simp

/-- The loop of the tick over a list in which player `p` has been cleared. -/
theorem tickLoop_map_clearPlayer (g : ℚ) (m : Nat → Bool) (p : Player) (asked : Nat)
    (l : List FadeContext) :
    tickLoop g m asked (l.map (clearPlayer p)) =
      { contextList := (tickLoop g m asked l).contextList.map (clearPlayer p)
        calls := (tickLoop g m asked l).calls.filter
          (fun call => !decide (call = Call.Destroy p))
        mutedQueries := (tickLoop g m asked l).mutedQueries } := by
  induction l generalizing asked with
  | nil => simp [tickLoop]
  | cons fade rest ih =>
    obtain ⟨h1, h2, _, _⟩ := clearPlayer_fields p fade
    obtain ⟨a1, a2, _, _⟩ := clearPlayer_fields p (advance fade)
    simp only [List.map_cons, tickLoop, advance_clearPlayer, volumeCall_clearPlayer, h1, h2,
      a1, a2, ih, completionCalls_clearPlayer]
    by_cases hmid : fade.ticksCounted < fade.ticksTotal
    · have hv := filter_not_Destroy_volumeCall g (m asked) p (advance fade)
      simp only [] at hv
      split <;> simp [hmid, List.filter_append, List.filter_cons, hv]
    · split <;> simp [hmid, List.filter_append]

/-- C16: `OnPlayerDestroyed` with a non-null player `p` clears the player of
exactly the contexts that held `p` and changes nothing else: same contexts in
the same order with the same output, direction and tick counts, same call log,
query log, paused flag and queue; afterwards `Contains(p)` is false. A tick
after it treats the contexts as it would have without it: it leaves the same
list (with `p` cleared) and makes the same calls, `Stop` of a completed
fade-out included, except that no `Destroy(p)` is made. With a null player
`OnPlayerDestroyed` returns the state as it is. -/
theorem OnPlayerDestroyed_clears (s : State) (p : Player) :
    (OnPlayerDestroyed s (some p)).contextList =
        s.contextList.map
          (fun c => if c.player = some p then { c with player := none } else c)
      ∧ (OnPlayerDestroyed s (some p)).calls = s.calls
      ∧ (OnPlayerDestroyed s (some p)).queries = s.queries
      ∧ (OnPlayerDestroyed s (some p)).paused = s.paused
      ∧ (OnPlayerDestroyed s (some p)).messageQueue = s.messageQueue
      ∧ Contains (OnPlayerDestroyed s (some p)) (some p) = false
      ∧ (∀ t : Transport,
          (ProcessMessage (OnPlayerDestroyed s (some p)) MESSAGE_TICK t).contextList =
              (ProcessMessage s MESSAGE_TICK t).contextList.map
                (fun c => if c.player = some p then { c with player := none } else c)
            ∧ (ProcessMessage (OnPlayerDestroyed s (some p)) MESSAGE_TICK t).calls.drop
                s.calls.length =
              ((ProcessMessage s MESSAGE_TICK t).calls.drop s.calls.length).filter
                (fun call => !decide (call = Call.Destroy p))
            ∧ Call.Destroy p ∉
                (ProcessMessage (OnPlayerDestroyed s (some p)) MESSAGE_TICK t).calls.drop
                  s.calls.length)
      ∧ OnPlayerDestroyed s none = s := by
  have htick : ∀ t : Transport,
      tickLoop t.Volume t.IsMuted 0 (OnPlayerDestroyed s (some p)).contextList =
        { contextList := (tickLoop t.Volume t.IsMuted 0 s.contextList).contextList.map
            (clearPlayer p)
          calls := (tickLoop t.Volume t.IsMuted 0 s.contextList).calls.filter
            (fun call => !decide (call = Call.Destroy p))
          mutedQueries := (tickLoop t.Volume t.IsMuted 0 s.contextList).mutedQueries } := by
    intro t
    rw [OnPlayerDestroyed_contextList, tickLoop_map_clearPlayer]
  have hcalls : ∀ t : Transport,
      (ProcessMessage (OnPlayerDestroyed s (some p)) MESSAGE_TICK t).calls.drop
          s.calls.length =
        ((ProcessMessage s MESSAGE_TICK t).calls.drop s.calls.length).filter
          (fun call => !decide (call = Call.Destroy p)) := by
    intro t
    rw [ProcessMessage_calls, ProcessMessage_calls, htick]
    have : (OnPlayerDestroyed s (some p)).calls = s.calls := rfl
    rw [this, List.drop_left, List.drop_left]
  refine ⟨rfl, rfl, rfl, rfl, rfl, ?_, ?_, rfl⟩
  · rw [Contains_eq_false_iff, OnPlayerDestroyed_contextList]
    intro c hc
    rw [List.mem_map] at hc
    obtain ⟨o, _, rfl⟩ := hc
    exact clearPlayer_player p o
  · intro t
    refine ⟨?_, hcalls t, ?_⟩
    · rw [ProcessMessage_contextList, ProcessMessage_contextList, htick]
      rfl
    · rw [hcalls t]
      intro hmem
      have := (List.mem_filter.mp hmem).2
      simp at this

/-! ## C17: `Destroy` and `Stop` at most once per context -/

theorem isShutdown_volumeCall (g : ℚ) (b : Bool) (c : FadeContext) :
    Call.isShutdown (volumeCall g b c) = false := by
  unfold volumeCall
  split <;> rfl

theorem count_of_no_shutdown (x : Call) (hx : Call.isShutdown x = true) (l : List Call)
    (hl : ∀ y ∈ l, Call.isShutdown y = false) : l.count x = 0 := by
  rw [List.count_eq_zero]
  intro hmem
  have := hl x hmem
  rw [hx] at this
  exact absurd this (by decide)

/-- In the loop of the tick every call `x` of the shutdown kind is paid for by
a context leaving the list. -/
theorem tickLoop_count (x : Call) (q : FadeContext → Bool)
    (hx : Call.isShutdown x = true)
    (hq : ∀ (c : FadeContext) (n : Int), q { c with ticksCounted := n } = q c)
    (hcomp : ∀ c : FadeContext, (completionCalls c).count x ≤ if q c = true then 1 else 0)
    (g : ℚ) (m : Nat → Bool) (asked : Nat) (l : List FadeContext) :
    (tickLoop g m asked l).calls.count x + (tickLoop g m asked l).contextList.countP q
      ≤ l.countP q := by
  induction l generalizing asked with
  | nil => simp [tickLoop]
  | cons fade rest ih =>
    have hadv : q (advance fade) = q fade := by
      unfold advance
      split
      · exact hq fade _
      · rfl
    have hvol : (if fade.ticksCounted < fade.ticksTotal then
        [volumeCall g (m asked) (advance fade)] else []).count x = 0 := by
      apply count_of_no_shutdown x hx
      intro y hy
      split at hy
      · rw [List.mem_singleton] at hy
        rw [hy]
        exact isShutdown_volumeCall _ _ _
      · exact absurd hy (List.not_mem_nil _)
    have hrest := ih (if fade.ticksCounted < fade.ticksTotal then asked + 1 else asked)
    have hc := hcomp (advance fade)
    rw [hadv] at hc
    simp only [tickLoop, List.countP_cons]
    split
    · simp only [List.count_append, hvol]
      omega
    · simp only [List.count_append, hvol, List.countP_cons, hadv]
      omega

theorem stopLoop_count (x : Call) (q : FadeContext → Bool)
    (hstop : ∀ c : FadeContext, (stopCalls c).count x ≤ if q c = true then 1 else 0)
    (l : List FadeContext) : (stopLoop l).count x ≤ l.countP q := by
  induction l with
  | nil => simp [stopLoop]
  | cons c rest ih =>
    have := hstop c
    simp only [stopLoop, List.count_append, List.countP_cons]
    omega

theorem Fade_countP (q : FadeContext → Bool)
    (hq : ∀ (c : FadeContext) (n : Int), q { c with ticksCounted := n } = q c)
    (s : State) (player : Option Player) (output : Output) (direction : Direction)
    (durationMs : Int) :
    (Fade s player output direction durationMs).contextList.countP q
      ≤ s.contextList.countP q
        + Op.created q (Op.Fade player output direction durationMs) := by
  cases h : Contains s player
  · rw [Fade_eq_of_not_Contains s player output direction durationMs h]
    simp only [List.countP_append, List.countP_map, Op.created, TICK_TIME_MILLIS_eq,
      List.countP_cons, List.countP_nil, Nat.zero_add]
    have hfun : (q ∘ fun c : FadeContext =>
        ({ c with ticksCounted := c.ticksTotal } : FadeContext)) = q := by
      funext c
      exact hq c _
    rw [hfun, ← List.countP_append, List.take_append_drop]
  · rw [Fade_of_Contains s player output direction durationMs h]
    exact Nat.le_add_right _ _

/-- Every step pays each call `x` of the shutdown kind with a context that
leaves the list. -/
theorem shutdown_step_count (x : Call) (q : FadeContext → Bool)
    (hx : Call.isShutdown x = true)
    (hq : ∀ (c : FadeContext) (n : Int), q { c with ticksCounted := n } = q c)
    (hclear : ∀ (p : Player) (c : FadeContext), q (clearPlayer p c) = true → q c = true)
    (hcomp : ∀ c : FadeContext, (completionCalls c).count x ≤ if q c = true then 1 else 0)
    (hstop : ∀ c : FadeContext, (stopCalls c).count x ≤ if q c = true then 1 else 0)
    (s : State) (op : Op) :
    ((step s op).calls.drop s.calls.length).count x + (step s op).contextList.countP q
      ≤ s.contextList.countP q + Op.created q op := by
  cases op with
  | Fade player output direction durationMs =>
    simp only [step]
    rw [Fade_calls, List.drop_length, List.count_nil, Nat.zero_add]
    exact Fade_countP q hq s player output direction durationMs
  | Stop =>
    have h := stopLoop_count x q hstop s.contextList
    simp only [step, Stop, List.drop_left, List.countP_nil, Op.created]
    omega
  | OnPlayerDestroyed player =>
    cases player with
    | none => simp [step, OnPlayerDestroyed, Op.created]
    | some p =>
      have hcalls : (step s (Op.OnPlayerDestroyed (some p))).calls = s.calls := rfl
      have hlist : (step s (Op.OnPlayerDestroyed (some p))).contextList =
          s.contextList.map (clearPlayer p) := rfl
      rw [hcalls, hlist, List.drop_length, List.count_nil, Nat.zero_add, List.countP_map]
      simp only [Op.created, Nat.add_zero]
      apply List.countP_mono_left
      intro c _ hc
      exact hclear p c hc
  | Cancel player direction =>
    cases player with
    | none => simp [step, Cancel, Op.created]
    | some p =>
      have hcalls : (step s (Op.Cancel (some p) direction)).calls = s.calls := rfl
      rw [hcalls, List.drop_length, List.count_nil, Nat.zero_add]
      simp only [step, Cancel, remove_if_eq_filter, Op.created, Nat.add_zero]
      exact List.Sublist.countP_le q (List.filter_sublist _)
  | Pause =>
    have h0 : (s.contextList.map (fun context => Call.Pause context.output)).count x = 0 := by
      apply count_of_no_shutdown x hx
      intro y hy
      rw [List.mem_map] at hy
      obtain ⟨c, _, rfl⟩ := hy
      rfl
    simp only [step, Pause, List.drop_left, h0, Op.created]
    omega
  | Resume =>
    have h0 : (s.contextList.map (fun context => Call.Resume context.output)).count x = 0 := by
      apply count_of_no_shutdown x hx
      intro y hy
      rw [List.mem_map] at hy
      obtain ⟨c, _, rfl⟩ := hy
      rfl
    simp only [step, Resume, List.drop_left, h0, Op.created]
    omega
  | Reset => simp [step, Reset, Op.created]
  | Tick i t =>
    simp only [step, Op.created, Nat.add_zero]
    split
    · rw [ProcessMessage_calls, ProcessMessage_contextList]
      have hc : ({ s with messageQueue := s.messageQueue.eraseIdx i } : State).calls
          = s.calls := rfl
      rw [hc, List.drop_left]
      exact tickLoop_count x q hx hq hcomp t.Volume t.IsMuted 0 s.contextList
    · simp

theorem step_count_Stop (o : Output) (s : State) (op : Op) :
    ((step s op).calls.drop s.calls.length).count (Call.Stop o)
        + (step s op).contextList.countP (fun c => decide (c.output = o))
      ≤ s.contextList.countP (fun c => decide (c.output = o))
        + Op.created (fun c => decide (c.output = o)) op := by
  apply shutdown_step_count (Call.Stop o) (fun c => decide (c.output = o)) rfl
  · intro c n
    rfl
  · intro p c hc
    rw [(clearPlayer_fields p c).2.2.1] at hc
    exact hc
  · intro c
    unfold completionCalls
    by_cases hd : c.direction = Direction.FadeOut
    · by_cases ho : c.output = o
      · cases hp : c.player <;> simp [hd, ho, List.count_cons]
      · cases hp : c.player <;> simp [hd, ho, List.count_cons]
    · simp [hd]
  · intro c
    unfold stopCalls
    by_cases ho : c.output = o
    · cases hp : c.player <;> simp [ho, List.count_cons]
    · cases hp : c.player <;> simp [ho, List.count_cons]

theorem step_count_Destroy (p : Player) (s : State) (op : Op) :
    ((step s op).calls.drop s.calls.length).count (Call.Destroy p)
        + (step s op).contextList.countP (fun c => decide (c.player = some p))
      ≤ s.contextList.countP (fun c => decide (c.player = some p))
        + Op.created (fun c => decide (c.player = some p)) op := by
  apply shutdown_step_count (Call.Destroy p) (fun c => decide (c.player = some p)) rfl
  · intro c n
    rfl
  · intro p2 c hc
    unfold clearPlayer at hc
    split at hc
    · simp at hc
    · exact hc
  · intro c
    unfold completionCalls
    by_cases hd : c.direction = Direction.FadeOut
    · cases hp : c.player with
      | none => simp [hd, List.count_cons]
      | some r =>
        by_cases hr : r = p
        · simp [hd, hr, List.count_cons]
        · simp [hd, hr, List.count_cons]
    · simp [hd]
  · intro c
    unfold stopCalls
    cases hp : c.player with
    | none => simp [List.count_cons]
    | some r =>
      by_cases hr : r = p
      · simp [hr, List.count_cons]
      · simp [hr, List.count_cons]

theorem playerCount_step (p : Player) (s : State) (op : Op)
    (hs : s.contextList.countP (fun c => decide (c.player = some p)) ≤ 1) :
    (step s op).contextList.countP (fun c => decide (c.player = some p)) ≤ 1 := by
  have h := step_count_Destroy p s op
  cases op with
  | Fade player output direction durationMs =>
    cases hc : Contains s player
    · by_cases hp : player = some p
      · subst hp
        have h0 : s.contextList.countP (fun c => decide (c.player = some p)) = 0 := by
          rw [List.countP_eq_zero]
          intro c hmem
          have := (Contains_eq_false_iff s p).mp hc c hmem
          simpa using this
        have hle : Op.created (fun c => decide (c.player = some p))
            (Op.Fade (some p) output direction durationMs) ≤ 1 := by
          simp [Op.created]
        omega
      · have h0 : Op.created (fun c => decide (c.player = some p))
            (Op.Fade player output direction durationMs) = 0 := by
          simp [Op.created, hp]
        omega
    · simp only [step]
      rw [Fade_of_Contains s player output direction durationMs hc]
      exact hs
  | Stop => simp only [Op.created] at h; omega
  | OnPlayerDestroyed player => simp only [Op.created] at h; omega
  | Cancel player direction => simp only [Op.created] at h; omega
  | Pause => simp only [Op.created] at h; omega
  | Resume => simp only [Op.created] at h; omega
  | Reset => simp only [Op.created] at h; omega
  | Tick i t => simp only [Op.created] at h; omega

/-- C17: in every state reached from the fresh crossfader, whatever step comes
next, each `Stop` call the step makes on an output `o` is matched by a context
with output `o` that is no longer in the list after the step, and each
`Destroy` call on a player `p` by a context of `p` that is no longer in the
list (a `Fade` makes no call and appends at most one context); the step calls
`Destroy` on `p` at most once, and when it does no context of `p` is left. -/
theorem shutdown_once (ops : List Op) (op : Op) :
    (∀ o : Output,
        ((step (run init ops) op).calls.drop (run init ops).calls.length).count (Call.Stop o)
            + (step (run init ops) op).contextList.countP (fun c => decide (c.output = o))
          ≤ (run init ops).contextList.countP (fun c => decide (c.output = o))
            + Op.created (fun c => decide (c.output = o)) op)
      ∧ (∀ p : Player,
          ((step (run init ops) op).calls.drop (run init ops).calls.length).count
                (Call.Destroy p)
              + (step (run init ops) op).contextList.countP
                  (fun c => decide (c.player = some p))
            ≤ (run init ops).contextList.countP (fun c => decide (c.player = some p))
              + Op.created (fun c => decide (c.player = some p)) op)
      ∧ (∀ p : Player,
          ((step (run init ops) op).calls.drop (run init ops).calls.length).count
              (Call.Destroy p) ≤ 1
            ∧ (Call.Destroy p ∈
                  (step (run init ops) op).calls.drop (run init ops).calls.length →
                ∀ c ∈ (step (run init ops) op).contextList, c.player ≠ some p)) := by
  refine ⟨fun o => step_count_Stop o _ op, fun p => step_count_Destroy p _ op, ?_⟩
  intro p
  have hinv : (run init ops).contextList.countP (fun c => decide (c.player = some p)) ≤ 1 :=
    run_invariant
      (fun s => s.contextList.countP (fun c => decide (c.player = some p)) ≤ 1)
      (fun _ => True) (fun s op _ hs => playerCount_step p s op hs) ops init
      (fun _ _ => trivial) (by simp [init])
  have h := step_count_Destroy p (run init ops) op
  have key : ((step (run init ops) op).calls.drop (run init ops).calls.length).count
        (Call.Destroy p)
      + (step (run init ops) op).contextList.countP (fun c => decide (c.player = some p))
      ≤ 1 := by
    cases op with
    | Fade player output direction durationMs =>
      have hafter := playerCount_step p (run init ops)
        (Op.Fade player output direction durationMs) hinv
      have hcalls : ((step (run init ops)
          (Op.Fade player output direction durationMs)).calls.drop
            (run init ops).calls.length).count (Call.Destroy p) = 0 := by
        simp only [step]
        rw [Fade_calls, List.drop_length, List.count_nil]
      omega
    | Stop => simp only [Op.created] at h; omega
    | OnPlayerDestroyed player => simp only [Op.created] at h; omega
    | Cancel player direction => simp only [Op.created] at h; omega
    | Pause => simp only [Op.created] at h; omega
    | Resume => simp only [Op.created] at h; omega
    | Reset => simp only [Op.created] at h; omega
    | Tick i t => simp only [Op.created] at h; omega
  constructor
  · omega
  · intro hmem c hc hcp
    have hpos : 0 < ((step (run init ops) op).calls.drop
        (run init ops).calls.length).count (Call.Destroy p) :=
      List.count_pos_iff.mpr hmem
    have hzero : (step (run init ops) op).contextList.countP
        (fun c => decide (c.player = some p)) = 0 := by omega
    rw [List.countP_eq_zero] at hzero
    exact hzero c hc (by simpa using hcp)

end Crossfader
